import Mathlib

/-!
Verification development for a small RISC-V (RV64, Sv39) teaching kernel.

Each C function relevant to the checked properties is shallowly embedded as a
Lean definition translated from the source in src/sys.  Machine integers are
modelled as Nat (with explicit truncation where the C code truncates), memory
and the disk as functions, and fallible code as Except / Option results.
-/

/- ==================== Trap dispatch (src/sys/excp.c, src/sys/memory.c) ==== -/

/-- Outcome of the U-mode exception handler: either it returns to the faulting
user instruction (resume), returns after running the syscall handler, or it
logs a message and calls process_exit, terminating the process. -/
inductive UmodeOutcome where
  | resumed
  | syscall_handled
  | process_exited
deriving DecidableEq

/-- Embeds handle_umode_page_fault (src/sys/memory.c:1197-1216).  The function
ignores its arguments and always returns 0 (its header comment documents 0 as
"the page fault is fatal and the process should be terminated"). -/
def handle_umode_page_fault (tfr vma : Nat) : Int :=
  let _ := tfr
  let _ := vma
  0

/-- Embeds the control flow of handle_umode_exception (src/sys/excp.c:111-163):
ECALL (scause 8) is routed to the syscall handler; for the three page-fault
causes (12, 13, 15) the hook is called and the handler RETURNS when the hook
result is 0; every path that falls through logs and calls process_exit. -/
def handle_umode_exception (cause : Nat) (tfr vma : Nat) : UmodeOutcome :=
  if cause = 8 then
    UmodeOutcome.syscall_handled
  else
    let x := cause = 12 ∨ cause = 13 ∨ cause = 15
    if x then
      if handle_umode_page_fault tfr vma = 0 then UmodeOutcome.resumed
      else UmodeOutcome.process_exited
    else UmodeOutcome.process_exited

/- ==================== Locks (src/sys/thread.c) =========================== -/

/-- Lock state: the owning thread (none models a NULL owner pointer) and the
recursion count, as manipulated by lock_init / lock_acquire / lock_release
in src/sys/thread.c. -/
structure KLock where
  owner : Option Nat
  cnt : Nat
deriving DecidableEq

/-- Embeds lock_init (src/sys/thread.c:517-520): memset to zero gives a NULL
owner and a zero count. -/
def lock_init : KLock := { owner := none, cnt := 0 }

/-- Embeds the effect of a completed lock_acquire (src/sys/thread.c:522-533)
by thread t on the lock fields.  The fast path (owner == TP) increments cnt;
otherwise the loop waits until owner == NULL and then unconditionally sets
owner := TP and cnt := 1, so the completed call installs exactly that state. -/
def lock_acquire (t : Nat) (l : KLock) : KLock :=
  if l.owner = some t then { l with cnt := l.cnt + 1 }
  else { owner := some t, cnt := 1 }

/-- Embeds lock_release (src/sys/thread.c:535-543) together with
lock_release_completely (src/sys/thread.c:750-761): cnt is decremented and,
when it reaches zero, the owner is cleared to NULL.  The asserts
(owner == TP, cnt != 0) become hypotheses of the theorems below. -/
def lock_release (l : KLock) : KLock :=
  let c := l.cnt - 1
  if c = 0 then { owner := none, cnt := 0 }
  else { l with cnt := c }

/-- The specified lock invariant: count == 0 iff owner == nil. -/
def lockInv (l : KLock) : Prop := l.cnt = 0 ↔ l.owner = none

instance (l : KLock) : Decidable (lockInv l) :=
  inferInstanceAs (Decidable (l.cnt = 0 ↔ l.owner = none))

/- ==================== Physical page allocator (src/sys/memory.c) ========= -/

/-- PAGE_SIZE from src/sys/memory.h (1 << 12). -/
def PAGE_SIZE : Nat := 4096

/-- A free-list chunk header (struct page_chunk): its physical start address
and number of pages.  The list order models the linked-list order. -/
structure PageChunk where
  addr : Nat
  pagecnt : Nat
deriving DecidableEq

/-- Result of alloc_phys_pages: NULL (cnt == 0), a successful allocation with
the returned pointer and the updated free list, or a kernel panic. -/
inductive AllocResult where
  | null
  | mem (addr : Nat) (fl : List PageChunk)
  | kpanic
deriving DecidableEq

/-- The best-fit scan of alloc_phys_pages (src/sys/memory.c:956-977): walk the
list keeping the index and pagecnt of the smallest chunk seen so far whose
pagecnt is at least cnt (strictly smaller replaces, so ties keep the first). -/
def bestFitScan (cnt : Nat) : List PageChunk → Nat → Option (Nat × Nat) → Option (Nat × Nat)
  | [], _, best => best
  | c :: rest, i, best =>
      let best' :=
        if cnt ≤ c.pagecnt then
          match best with
          | none => some (i, c.pagecnt)
          | some (_, bp) => if c.pagecnt < bp then some (i, c.pagecnt) else best
        else best
      bestFitScan cnt rest (i + 1) best'

/-- Embeds alloc_phys_pages (src/sys/memory.c:910-1044) as a function of the
free chunk list.  cnt == 0 returns NULL; an empty list panics; otherwise the
best-fit chunk is selected; an exact fit is unlinked and its base returned,
and otherwise the last cnt pages are carved from the high end of the chunk
and its pagecnt is reduced in place. -/
def alloc_phys_pages (cnt : Nat) (fl : List PageChunk) : AllocResult :=
  if cnt = 0 then AllocResult.null
  else if fl = [] then AllocResult.kpanic
  else
    match bestFitScan cnt fl 0 none with
    | none => AllocResult.kpanic
    | some (i, _) =>
        match fl.get? i with
        | none => AllocResult.kpanic
        | some best =>
            if best.pagecnt = cnt then
              AllocResult.mem best.addr (fl.eraseIdx i)
            else
              AllocResult.mem (best.addr + (best.pagecnt - cnt) * PAGE_SIZE)
                (fl.set i { addr := best.addr, pagecnt := best.pagecnt - cnt })

/- ==================== Page tables (src/sys/memory.c) ===================== -/

/-- A RISC-V Sv39 PTE with the bit fields of struct pte
(src/sys/memory.c:96-103): flags(8) rsw(2) ppn(44) reserved(7) pbmt(2) n(1).
Field values are Nats; the flag constants are PTE_V=1, PTE_R=2, PTE_W=4,
PTE_X=8, PTE_U=16, PTE_G=32, PTE_A=64, PTE_D=128 (src/sys/memory.h). -/
structure PteC where
  flags : Nat
  rsw : Nat
  ppn : Nat
  reserved : Nat
  pbmt : Nat
  n : Nat
deriving DecidableEq

/-- PTE_VALID: the V flag (bit 0) is set. -/
def pteValid (p : PteC) : Bool := p.flags &&& 1 ≠ 0

/-- PTE_LEAF: any of R|W|X (bits 1..3) is set. -/
def pteLeaf (p : PteC) : Bool := p.flags &&& 14 ≠ 0

/-- Page-table memory: table page number → entry index → PTE.  Each 4 KiB
page of physical memory holding a table is addressed by its page number,
matching pageptr/pagenum in the source. -/
def PtMem : Type := Nat → Nat → PteC

/-- Write one PTE in page-table memory. -/
def ptmSet (m : PtMem) (t i : Nat) (p : PteC) : PtMem :=
  fun t' i' => if t' = t ∧ i' = i then p else m t' i'

/-- PT_INDEX(lvl, vpn) from src/sys/memory.c:120-121: the 9-bit VPN component
for the given level. -/
def PT_INDEX (lvl vpn : Nat) : Nat := (vpn >>> (9 * lvl)) % 512

/-- Embeds ptab_fetch (src/sys/memory.c:1526-1560): walk levels 2,1,0 from the
root table; return the location (table page, index) of the first entry that is
a leaf (or the level-0 entry), or none if an invalid entry is met. -/
def ptab_fetch (m : PtMem) (root vpn : Nat) : Option (Nat × Nat) :=
  let i2 := PT_INDEX 2 vpn
  let e2 := m root i2
  if ¬ pteValid e2 then none
  else if pteLeaf e2 then some (root, i2)
  else
    let t1 := e2.ppn
    let i1 := PT_INDEX 1 vpn
    let e1 := m t1 i1
    if ¬ pteValid e1 then none
    else if pteLeaf e1 then some (t1, i1)
    else
      let t0 := e1.ppn
      let i0 := PT_INDEX 0 vpn
      let e0 := m t0 i0
      if ¬ pteValid e0 then none
      else some (t0, i0)

/-- Embeds ptab_adjust (src/sys/memory.c:1758-1786): fetch the PTE for vpn;
if unmapped or not a leaf, do nothing; otherwise keep the flag bits outside
R|W|X|U|G (the mask of those five bits is 0x3E, its complement inside the
8-bit field is 0xC1 = A|D|V) and OR in the caller's flags truncated to
8 bits, leaving every other field untouched. -/
def ptab_adjust (m : PtMem) (root vpn : Nat) (rwxug_flags : Nat) : PtMem :=
  match ptab_fetch m root vpn with
  | none => m
  | some (t, i) =>
      let old := m t i
      if ¬ pteLeaf old then m
      else
        let non_flag_bits := old.flags &&& 193
        ptmSet m t i { old with flags := non_flag_bits ||| (rwxug_flags % 256) }

/-- Embeds set_range_flags (src/sys/memory.c:566-624): for a non-empty range,
apply ptab_adjust to each of the ceil(size / PAGE_SIZE) consecutive VPNs
starting at VPN(vma). -/
def set_range_flags (m : PtMem) (root : Nat) (vma size rwxug_flags : Nat) : PtMem :=
  if size = 0 then m
  else
    let num_pages := (size + PAGE_SIZE - 1) / PAGE_SIZE
    let starting_vpn := vma / PAGE_SIZE
    (List.range num_pages).foldl
      (fun mem i => ptab_adjust mem root (starting_vpn + i) rwxug_flags) m

/-- Concrete page-table memory for the C5 counterexample: the root table
(page 0) has, at index 0, a valid global leaf gigapage with
flags = V|R|G|A|D = 227; every other entry is zero (invalid). -/
def memC5 : PtMem :=
  fun t i =>
    if t = 0 ∧ i = 0 then
      { flags := 227, rsw := 0, ppn := 77, reserved := 0, pbmt := 0, n := 0 }
    else
      { flags := 0, rsw := 0, ppn := 0, reserved := 0, pbmt := 0, n := 0 }

/-- The page loop of set_range_flags (src/sys/memory.c:616-624): fold
ptab_adjust over n consecutive VPNs starting at vpn0. -/
def adjFold (m : PtMem) (root vpn0 mask n : Nat) : PtMem :=
  (List.range n).foldl (fun mem i => ptab_adjust mem root (vpn0 + i) mask) m

/-- (t, i) is the slot of a mapped leaf PTE reached by the walk of one of the
first n pages of the range starting at vpn0. -/
def leafSlotIn (m : PtMem) (root vpn0 n t i : Nat) : Prop :=
  ∃ j, j < n ∧ ptab_fetch m root (vpn0 + j) = some (t, i) ∧ pteLeaf (m t i) = true

/-- Concrete page-table memory for the C5 witness: a two-page 4 KiB mapping.
Root table page 10, entry 0, points (flags V = 1) to table page 11; page 11,
entry 0, points to table page 12; page 12 holds leaf PTEs at index 0
(flags V|R|W|G|A|D = 231) and index 1 (flags V|R|A|D = 195). -/
def memC5w : PtMem :=
  fun t i =>
    if t = 10 ∧ i = 0 then
      { flags := 1, rsw := 0, ppn := 11, reserved := 0, pbmt := 0, n := 0 }
    else if t = 11 ∧ i = 0 then
      { flags := 1, rsw := 0, ppn := 12, reserved := 0, pbmt := 0, n := 0 }
    else if t = 12 ∧ i = 0 then
      { flags := 231, rsw := 0, ppn := 300, reserved := 0, pbmt := 0, n := 0 }
    else if t = 12 ∧ i = 1 then
      { flags := 195, rsw := 0, ppn := 301, reserved := 0, pbmt := 0, n := 0 }
    else
      { flags := 0, rsw := 0, ppn := 0, reserved := 0, pbmt := 0, n := 0 }

/- ==================== Block cache (src/sys/cache.c) ====================== -/

/-- CACHE_BLKSZ from src/sys/cache.h. -/
def CACHE_BLKSZ : Nat := 512

/-- One cache entry (struct cache_entry, src/sys/cache.c:36-47).  The data
buffer is modelled as a byte function; each entry owns a distinct kmalloc'd
buffer, so a data pointer identifies its entry index. -/
structure CacheEntry where
  block_n : Nat
  data : Nat → Nat
  dirty : Bool
  valid : Bool
  access_time : Nat
  in_use : Bool
  owner_tid : Int

/-- Cache state (struct cache, src/sys/cache.c:50-60) together with the
backing storage, modelled as block index → byte index → byte; the storage
is in range and transfers full blocks (short transfers do not occur). -/
structure CacheSt where
  stor : Nat → Nat → Nat
  entries : List CacheEntry
  timer : Nat
  last_used : Int

/-- Write one block of the backing storage. -/
def storSet (s : Nat → Nat → Nat) (b : Nat) (d : Nat → Nat) : Nat → Nat → Nat :=
  fun b' => if b' = b then d else s b'

/-- First pass of cache_evict_entry (src/sys/cache.c:297-301): index of the
first entry that is both invalid and unpinned. -/
def cache_first_free : List CacheEntry → Nat → Option Nat
  | [], _ => none
  | e :: rest, i =>
      if e.valid = false ∧ e.in_use = false then some i
      else cache_first_free rest (i + 1)

/-- Second pass of cache_evict_entry (src/sys/cache.c:304-312): the LRU scan.
min starts at ~0u and ret at -1; a valid unpinned entry is recorded when
ret == -1 or its access_time is strictly below the recorded minimum. -/
def cache_lru_scan : List CacheEntry → Nat → Nat → Int → Int
  | [], _, _, ret => ret
  | e :: rest, i, min, ret =>
      if e.valid = true ∧ e.in_use = false ∧ (ret = -1 ∨ e.access_time < min) then
        cache_lru_scan rest (i + 1) e.access_time (Int.ofNat i)
      else
        cache_lru_scan rest (i + 1) min ret

/-- Embeds cache_evict_entry (src/sys/cache.c:293-316): first free (invalid,
unpinned) slot in index order, else the LRU scan result (-1 if every entry is
pinned). -/
def cache_evict_entry (c : CacheSt) : Int :=
  match cache_first_free c.entries 0 with
  | some i => Int.ofNat i
  | none => cache_lru_scan c.entries 0 4294967295 (-1)

/-- Step 2 of cache_get_block (src/sys/cache.c:142-147): if last_used names an
entry pinned by the calling thread, unpin it and clear last_used. -/
def cache_unpin_last (c : CacheSt) (t : Int) : CacheSt :=
  if 0 ≤ c.last_used then
    match c.entries.get? c.last_used.toNat with
    | some e =>
        if e.owner_tid = t then
          { c with
            entries := c.entries.set c.last_used.toNat
              { e with in_use := false, owner_tid := -1 },
            last_used := -1 }
        else c
    | none => c
  else c

/-- Hit scan of cache_get_block (src/sys/cache.c:150-151): index of the first
valid entry whose block number matches. -/
def cache_hit_find : List CacheEntry → Nat → Nat → Option Nat
  | [], _, _ => none
  | e :: rest, p, i =>
      if e.block_n = p ∧ e.valid = true then some i
      else cache_hit_find rest p (i + 1)

/-- Result of cache_get_block: an error code, blocked (the matching entry is
pinned by another thread, so the call waits and cannot complete by itself),
or success with the returned entry index (the data pointer) and new state. -/
inductive CacheGetRes where
  | err (e : Int)
  | blocked
  | ok (idx : Nat) (c : CacheSt)

/-- Embeds cache_get_block (src/sys/cache.c:130-220) for calling thread t:
alignment check, implicit unpin of the caller's previous block, hit scan
(waiting if the entry is pinned by another thread), and on a miss victim
selection, writeback of a dirty victim, and fetch of the requested block. -/
def cache_get_block (c0 : CacheSt) (pos : Nat) (t : Int) : CacheGetRes :=
  if pos % CACHE_BLKSZ ≠ 0 then CacheGetRes.err (-1)
  else
    let position := pos / CACHE_BLKSZ
    let c := cache_unpin_last c0 t
    match cache_hit_find c.entries position 0 with
    | some i =>
        match c.entries.get? i with
        | none => CacheGetRes.err (-1)
        | some e =>
            if e.in_use = true ∧ e.owner_tid ≠ t then CacheGetRes.blocked
            else
              let timer' := c.timer + 1
              CacheGetRes.ok i
                { c with
                  entries := c.entries.set i
                    { e with in_use := true, owner_tid := t, access_time := timer' },
                  timer := timer',
                  last_used := Int.ofNat i }
    | none =>
        let idx := cache_evict_entry c
        if idx < 0 then CacheGetRes.err (-2)
        else
          match c.entries.get? idx.toNat with
          | none => CacheGetRes.err (-1)
          | some e =>
              let stor1 :=
                if e.valid = true ∧ e.dirty = true then storSet c.stor e.block_n e.data
                else c.stor
              let timer' := c.timer + 1
              CacheGetRes.ok idx.toNat
                { stor := stor1,
                  entries := c.entries.set idx.toNat
                    { block_n := position, data := stor1 position, dirty := false,
                      valid := true, access_time := timer', in_use := true,
                      owner_tid := t },
                  timer := timer',
                  last_used := idx }

/-- Embeds cache_release_block (src/sys/cache.c:232-259).  The C code scans
for the valid entry whose data buffer pointer equals pblk; the buffers are
pairwise distinct allocations, so the pointer identifies the entry index,
which the model takes directly.  The matched entry gets dirty |= flag,
in_use cleared and owner cleared; no match is silently ignored. -/
def cache_release_block (c : CacheSt) (idx : Nat) (dirty : Bool) : CacheSt :=
  match c.entries.get? idx with
  | none => c
  | some e =>
      if e.valid = true then
        { c with
          entries := c.entries.set idx
            { e with dirty := e.dirty || dirty, in_use := false, owner_tid := -1 } }
      else c

/-- Per-entry part of the single-thread cache invariant: a pinned entry is
owned by t and is the entry recorded in last_used. -/
def entOk (t lu : Int) (i : Nat) : Option CacheEntry → Prop
  | some e => e.in_use = true → e.owner_tid = t ∧ lu = Int.ofNat i
  | none => True

instance (t lu : Int) (i : Nat) (o : Option CacheEntry) : Decidable (entOk t lu i o) :=
  match o with
  | some e => inferInstanceAs (Decidable (e.in_use = true → e.owner_tid = t ∧ lu = Int.ofNat i))
  | none => Decidable.isTrue trivial

/-- Cache states reachable by a single thread t: 64 entries, and every pinned
entry is owned by t and recorded in last_used (so there is at most one). -/
def cacheInv (c : CacheSt) (t : Int) : Prop :=
  c.entries.length = 64 ∧ ∀ i, i < 64 → entOk t c.last_used i (c.entries.get? i)

instance (c : CacheSt) (t : Int) : Decidable (cacheInv c t) :=
  inferInstanceAs
    (Decidable (c.entries.length = 64 ∧ ∀ i, i < 64 → entOk t c.last_used i (c.entries.get? i)))

/- ==================== KTFS (src/sys/ktfs.c, src/sys/ktfs.h) ============== -/

/-- KTFS_BLKSZ from src/sys/ktfs.h. -/
def KTFS_BLKSZ : Nat := 512

/-- KTFS_MAX_FILE_SIZE from src/sys/ktfs.h: 4 direct blocks, one single
indirect table of 128 entries, two double-indirect tables of 128*128
entries, each covering a 512-byte block (16844800 bytes). -/
def KTFS_MAX_FILE_SIZE : Nat := 4 * 512 + 128 * 512 + 2 * 128 * 128 * 512

/-- One 512-byte disk block: byte index → byte value. -/
def Block : Type := Nat → Nat

/-- The combined cache + disk contents: absolute block number → block.  All
KTFS accesses go through the one block cache of the mount, and the claims
below are single-threaded, so reads return the most recent write and
cache_get_block / cache_release_block pairs are modelled as pure reads and
in-place block updates. -/
def Disk : Type := Nat → Block

/-- Little-endian uint32 load at a byte offset, as the C does by casting into
packed structs or uint32_t tables on a little-endian machine. -/
def leU32 (b : Block) (off : Nat) : Nat :=
  b off + 256 * b (off + 1) + 65536 * b (off + 2) + 16777216 * b (off + 3)

/-- Little-endian uint16 load at a byte offset. -/
def leU16 (b : Block) (off : Nat) : Nat := b off + 256 * b (off + 1)

/-- Replace one block of the disk. -/
def diskSetBlock (d : Disk) (n : Nat) (b : Block) : Disk :=
  fun m => if m = n then b else d m

/-- Store a uint32 little-endian at a byte offset of a block. -/
def blkSetU32 (b : Block) (off v : Nat) : Block :=
  fun j =>
    if j = off then v % 256
    else if j = off + 1 then (v >>> 8) % 256
    else if j = off + 2 then (v >>> 16) % 256
    else if j = off + 3 then (v >>> 24) % 256
    else b j

/-- struct ktfs_superblock (src/sys/ktfs.h:79-95). -/
structure KtfsSuperblock where
  block_count : Nat
  inode_bitmap_block_count : Nat
  bitmap_block_count : Nat
  inode_block_count : Nat
  root_directory_inode : Nat
deriving DecidableEq

/-- Embeds ktfs_read_super (src/sys/ktfs.c:1145-1154): block 0 interpreted as
the packed little-endian superblock. -/
def ktfs_read_super (d : Disk) : KtfsSuperblock :=
  let b := d 0
  { block_count := leU32 b 0,
    inode_bitmap_block_count := leU32 b 4,
    bitmap_block_count := leU32 b 8,
    inode_block_count := leU32 b 12,
    root_directory_inode := leU16 b 16 }

/-- The four region anchors computed by ktfs_compute_layout
(src/sys/ktfs.c:1157-1170). -/
structure KtfsLayout where
  inode_bitmap_start : Nat
  block_bitmap_start : Nat
  inode_start : Nat
  data_start : Nat

/-- Embeds ktfs_compute_layout (src/sys/ktfs.c:1157-1170). -/
def ktfs_compute_layout (sb : KtfsSuperblock) : KtfsLayout :=
  let ibs := 1
  let bbs := ibs + sb.inode_bitmap_block_count
  let its := bbs + sb.bitmap_block_count
  let ds := its + sb.inode_block_count
  { inode_bitmap_start := ibs, block_bitmap_start := bbs,
    inode_start := its, data_start := ds }

/-- struct ktfs_inode (src/sys/ktfs.h:98-104): size, 4 direct indices, one
single-indirect index, 2 double-indirect indices (all relative to
data_start). -/
structure KtfsInode where
  size : Nat
  block : List Nat
  indirect : Nat
  dindirect : List Nat
deriving DecidableEq

/-- Parse a 32-byte packed inode at a byte offset of a block. -/
def parseInode (b : Block) (off : Nat) : KtfsInode :=
  { size := leU32 b off,
    block := [leU32 b (off + 4), leU32 b (off + 8), leU32 b (off + 12), leU32 b (off + 16)],
    indirect := leU32 b (off + 20),
    dindirect := [leU32 b (off + 24), leU32 b (off + 28)] }

/-- Embeds ktfs_inode_grab (src/sys/ktfs.c:1300-1320): locate the inode table
block holding inode inode_num and copy the inode out. -/
def ktfs_inode_grab (d : Disk) (sb : KtfsSuperblock) (inode_num : Nat) : KtfsInode :=
  let lay := ktfs_compute_layout sb
  let ino_off := inode_num * 32
  let blk_idx := ino_off / KTFS_BLKSZ
  let within := ino_off % KTFS_BLKSZ
  parseInode (d (lay.inode_start + blk_idx)) within

/-- Byte i (i < 32) of the packed serialization of an inode, as laid down by
the memcpy in ktfs_write_to_ino. -/
def inodeByte (ino : KtfsInode) (i : Nat) : Nat :=
  if i < 4 then (ino.size >>> (8 * i)) % 256
  else if i < 20 then ((ino.block.getD ((i - 4) / 4) 0) >>> (8 * ((i - 4) % 4))) % 256
  else if i < 24 then (ino.indirect >>> (8 * (i - 20))) % 256
  else ((ino.dindirect.getD ((i - 24) / 4) 0) >>> (8 * ((i - 24) % 4))) % 256

/-- Embeds ktfs_write_to_ino (src/sys/ktfs.c:1530-1563): overwrite the 32
bytes of inode inode_num inside its inode-table block and mark it dirty. -/
def ktfs_write_to_ino (d : Disk) (sb : KtfsSuperblock) (inode_num : Nat) (src : KtfsInode) : Disk :=
  let lay := ktfs_compute_layout sb
  let ino_off := inode_num * 32
  let blk_idx := ino_off / KTFS_BLKSZ
  let within := ino_off % KTFS_BLKSZ
  let bn := lay.inode_start + blk_idx
  let old := d bn
  diskSetBlock d bn
    (fun j => if within ≤ j ∧ j < within + 32 then inodeByte src (j - within) else old j)

/-- The double-indirect resolution inside ktfs_map_block
(src/sys/ktfs.c:1217-1248), for one dindirect slot value and the residual
lbn inside its 128*128 window.  As in the source, the zero-index hole checks
are commented out, so a zero entry resolves to data_start + 0. -/
def ktfs_map_block_dind (d : Disk) (ds dindVal lbn : Nat) : Except Int Nat :=
  let indirect_index := 128
  let block := d (ds + dindVal)
  let index1 := lbn / indirect_index
  let index2 := lbn % indirect_index
  let indirect_idx := leU32 block (4 * index1)
  let block2 := d (ds + indirect_idx)
  let idx := leU32 block2 (4 * index2)
  Except.ok (ds + idx)

/-- Embeds ktfs_map_block (src/sys/ktfs.c:1173-1252).  NOTE: in the source
every "if (idx == 0) return -ENOENT" hole check is commented out, so a zero
stored index is translated like any other and yields data_start + 0; only a
logical block number beyond the double-indirect range returns -ENOENT. -/
def ktfs_map_block (d : Disk) (sb : KtfsSuperblock) (ino : KtfsInode) (lbn : Nat) :
    Except Int Nat :=
  let lay := ktfs_compute_layout sb
  let ds := lay.data_start
  let indirect_index := KTFS_BLKSZ / 4
  if lbn < 4 then
    Except.ok (ds + ino.block.getD lbn 0)
  else
    let lbn1 := lbn - 4
    if lbn1 < indirect_index then
      let p := d (ds + ino.indirect)
      let idx := leU32 p (4 * lbn1)
      Except.ok (ds + idx)
    else
      let width := indirect_index * indirect_index
      let lbn2 := lbn1 - indirect_index
      if lbn2 < width then
        ktfs_map_block_dind d ds (ino.dindirect.getD 0 0) lbn2
      else if lbn2 - width < width then
        ktfs_map_block_dind d ds (ino.dindirect.getD 1 0) (lbn2 - width)
      else
        Except.error (-6)

/-- The bounds query of ktfs_bitmap_indices_fetch (src/sys/ktfs.c:1323-1349):
kind 0 is the inode bitmap (16 32-byte inodes per table block), anything else
the data bitmap (one bit per block of the filesystem). -/
def ktfs_bitmap_indices_fetch (sb : KtfsSuperblock) (kind : Nat) : Nat × Nat × Nat :=
  let lay := ktfs_compute_layout sb
  if kind = 0 then
    (lay.inode_bitmap_start, sb.inode_bitmap_block_count,
     sb.inode_block_count * (KTFS_BLKSZ / 32))
  else
    (lay.block_bitmap_start, sb.bitmap_block_count, sb.block_count)

/-- Inner bit loop of ktfs_bitmap_free_bit_detect (src/sys/ktfs.c:1420-1436):
scan bit positions bitp..7 of one bitmap byte under the window mask; none
means keep scanning, otherwise the loop returns (a free bit, or -ENOENT when
the found bit falls outside total_bits). -/
def fbdBitLoop (cur mask byte_base_bit first_allowed total_bits : Nat) :
    Nat → Option (Except Int Nat)
  | bitp =>
    if bitp < 8 then
      if mask.testBit bitp = false then
        fbdBitLoop cur mask byte_base_bit first_allowed total_bits (bitp + 1)
      else if cur.testBit bitp = true then
        fbdBitLoop cur mask byte_base_bit first_allowed total_bits (bitp + 1)
      else
        let found := byte_base_bit + bitp
        if found < first_allowed then
          fbdBitLoop cur mask byte_base_bit first_allowed total_bits (bitp + 1)
        else if total_bits ≤ found then some (Except.error (-6))
        else some (Except.ok found)
    else none
termination_by bitp => 8 - bitp

/-- Byte loop of ktfs_bitmap_free_bit_detect (src/sys/ktfs.c:1396-1437):
scan bytes by..511 of one bitmap block, computing the leading window mask in
the first scanned byte of the first block and the tail mask at total_bits. -/
def fbdByteLoop (blk : Block) (base_bit first_allowed total_bits : Nat)
    (isFirstBlk : Bool) (first_byte bit_in_byte0 : Nat) :
    Nat → Option (Except Int Nat)
  | byi =>
    if byi < 512 then
      let byte_base_bit := base_bit + byi * 8
      if total_bits ≤ byte_base_bit then some (Except.error (-6))
      else
        let wm1 :=
          if isFirstBlk = true ∧ byi = first_byte then
            255 &&& (255 ^^^ ((1 <<< bit_in_byte0) - 1))
          else 255
        let remaining_bits := total_bits - byte_base_bit
        let wm2 := if remaining_bits < 8 then wm1 &&& ((1 <<< remaining_bits) - 1) else wm1
        if wm2 = 0 then
          fbdByteLoop blk base_bit first_allowed total_bits isFirstBlk first_byte bit_in_byte0 (byi + 1)
        else
          match fbdBitLoop (blk byi) wm2 byte_base_bit first_allowed total_bits 0 with
          | some r => some r
          | none =>
              fbdByteLoop blk base_bit first_allowed total_bits isFirstBlk first_byte bit_in_byte0 (byi + 1)
    else none
termination_by byi => 512 - byi

/-- Block loop of ktfs_bitmap_free_bit_detect (src/sys/ktfs.c:1386-1440),
running with fuel (the number of bitmap blocks still to scan); falling off
the end returns -ENOENT. -/
def fbdBlkLoop (d : Disk) (bitmap_start first_allowed total_bits blk0 first_byte bit_in_byte0 : Nat)
    (bitmap_blocks : Nat) : Nat → Nat → Except Int Nat
  | 0, _ => Except.error (-6)
  | fuel + 1, b =>
      if b < bitmap_blocks then
        let blk := d (bitmap_start + b)
        let base_bit := b * (KTFS_BLKSZ * 8)
        let fb := if b = blk0 then first_byte else 0
        match fbdByteLoop blk base_bit first_allowed total_bits (decide (b = blk0)) first_byte bit_in_byte0 fb with
        | some r => r
        | none =>
            fbdBlkLoop d bitmap_start first_allowed total_bits blk0 first_byte bit_in_byte0
              bitmap_blocks fuel (b + 1)
      else Except.error (-6)

/-- Embeds ktfs_bitmap_free_bit_detect (src/sys/ktfs.c:1353-1443): first-fit
scan for a clear bit, skipping bits below data_start for the data bitmap. -/
def ktfs_bitmap_free_bit_detect (d : Disk) (sb : KtfsSuperblock) (kind : Nat) :
    Except Int Nat :=
  let r := ktfs_bitmap_indices_fetch sb kind
  let bitmap_start := r.1
  let bitmap_blocks := r.2.1
  let total_bits := r.2.2
  let lay := ktfs_compute_layout sb
  let first_allowed := if kind ≠ 0 then lay.data_start else 0
  if kind ≠ 0 ∧ total_bits ≤ first_allowed then Except.error (-1)
  else
    let max_bits_per_bitmap := KTFS_BLKSZ * 8
    let start_bit := first_allowed
    let blk0 := start_bit / max_bits_per_bitmap
    if bitmap_blocks ≤ blk0 then Except.error (-6)
    else
      let bit_in_blk0 := start_bit % max_bits_per_bitmap
      let byte0 := bit_in_blk0 / 8
      let bit_in_byte0 := bit_in_blk0 % 8
      fbdBlkLoop d bitmap_start first_allowed total_bits blk0 byte0 bit_in_byte0
        bitmap_blocks (bitmap_blocks - blk0) blk0

/-- Embeds ktfs_bitmap_mark (src/sys/ktfs.c:1447-1485): set one allocation
bit, writing the bitmap block back through the cache as dirty. -/
def ktfs_bitmap_mark (d : Disk) (sb : KtfsSuperblock) (kind idx : Nat) : Except Int Disk :=
  let r := ktfs_bitmap_indices_fetch sb kind
  let bitmap_start := r.1
  let bitmap_count := r.2.1
  let max_bits := r.2.2
  if max_bits ≤ idx then Except.error (-1)
  else
    let bits_per_bitmap := KTFS_BLKSZ * 8
    let blk_idx := idx / bits_per_bitmap
    let bit_off := idx % bits_per_bitmap
    let byte_off := bit_off / 8
    let bit_in_byte := bit_off % 8
    if bitmap_count ≤ blk_idx ∨ KTFS_BLKSZ ≤ byte_off then Except.error (-1)
    else
      let bn := bitmap_start + blk_idx
      let old := d bn
      Except.ok (diskSetBlock d bn
        (fun j => if j = byte_off then old j ||| (1 <<< bit_in_byte) else old j))

/-- Embeds ktfs_alloc_zero_block (src/sys/ktfs.c:1878-1894): find a free data
bit, mark it, and zero-fill the corresponding block. -/
def ktfs_alloc_zero_block (d : Disk) (sb : KtfsSuperblock) : Except Int (Nat × Disk) :=
  match ktfs_bitmap_free_bit_detect d sb 1 with
  | Except.error e => Except.error e
  | Except.ok calc_abs_no =>
      match ktfs_bitmap_mark d sb 1 calc_abs_no with
      | Except.error e => Except.error e
      | Except.ok d1 =>
          Except.ok (calc_abs_no, diskSetBlock d1 calc_abs_no (fun _ => 0))

/-- The double-indirect branch of ktfs_map_block_and_or_allocate
(src/sys/ktfs.c:1815-1872) for one dindirect slot: allocate the missing
first-level table, second-level table and data block as needed, storing
relative indices, and return (absolute block, disk, new dindirect value). -/
def ktfs_maa_dind (d : Disk) (sb : KtfsSuperblock) (ds dindVal lbn : Nat) :
    Except Int (Nat × Disk × Nat) :=
  let ents_per := 128
  match (if dindVal = 0 then
           match ktfs_alloc_zero_block d sb with
           | Except.error e => Except.error e
           | Except.ok (a, d1) => Except.ok (a - ds, d1)
         else Except.ok (dindVal, d) : Except Int (Nat × Disk)) with
  | Except.error e => Except.error e
  | Except.ok (dind1, d1) =>
      let i1 := lbn / ents_per
      let i2 := lbn % ents_per
      let dblk := ds + dind1
      let indirect_number := leU32 (d1 dblk) (4 * i1)
      match (if indirect_number = 0 then
               match ktfs_alloc_zero_block d1 sb with
               | Except.error e => Except.error e
               | Except.ok (a2, d2) =>
                   Except.ok (a2 - ds, diskSetBlock d2 dblk (blkSetU32 (d2 dblk) (4 * i1) (a2 - ds)))
             else Except.ok (indirect_number, d1) : Except Int (Nat × Disk)) with
      | Except.error e => Except.error e
      | Except.ok (in1, d3) =>
          let l2bn := ds + in1
          let data_idx := leU32 (d3 l2bn) (4 * i2)
          if data_idx = 0 then
            match ktfs_alloc_zero_block d3 sb with
            | Except.error e => Except.error e
            | Except.ok (a3, d4) =>
                Except.ok (a3, diskSetBlock d4 l2bn (blkSetU32 (d4 l2bn) (4 * i2) (a3 - ds)), dind1)
          else Except.ok (ds + data_idx, d3, dind1)

/-- Embeds ktfs_map_block_and_or_allocate (src/sys/ktfs.c:1744-1875): without
allocation it defers to ktfs_map_block; with allocation it fills any zero
index on the path (direct slot, indirect table, double-indirect tables) with
freshly allocated zeroed blocks, storing indices relative to data_start. -/
def ktfs_map_block_and_or_allocate (d : Disk) (sb : KtfsSuperblock) (ino : KtfsInode)
    (lbn : Nat) (allocE : Bool) : Except Int (Nat × Disk × KtfsInode) :=
  if allocE = false then
    match ktfs_map_block d sb ino lbn with
    | Except.error e => Except.error e
    | Except.ok abs => Except.ok (abs, d, ino)
  else
    let ds := (ktfs_compute_layout sb).data_start
    let ents_per := 128
    if lbn < 4 then
      let idx := ino.block.getD lbn 0
      if idx = 0 then
        match ktfs_alloc_zero_block d sb with
        | Except.error e => Except.error e
        | Except.ok (a, d1) =>
            Except.ok (a, d1, { ino with block := ino.block.set lbn (a - ds) })
      else Except.ok (ds + idx, d, ino)
    else
      let lbn1 := lbn - 4
      if lbn1 < ents_per then
        match (if ino.indirect = 0 then
                 match ktfs_alloc_zero_block d sb with
                 | Except.error e => Except.error e
                 | Except.ok (a, d1) => Except.ok ({ ino with indirect := a - ds }, d1)
               else Except.ok (ino, d) : Except Int (KtfsInode × Disk)) with
        | Except.error e => Except.error e
        | Except.ok (ino1, d1) =>
            let tblBn := ds + ino1.indirect
            let idx := leU32 (d1 tblBn) (4 * lbn1)
            if idx = 0 then
              match ktfs_alloc_zero_block d1 sb with
              | Except.error e => Except.error e
              | Except.ok (a, d2) =>
                  Except.ok (a, diskSetBlock d2 tblBn (blkSetU32 (d2 tblBn) (4 * lbn1) (a - ds)), ino1)
            else Except.ok (ds + idx, d1, ino1)
      else
        let lbn2 := lbn1 - ents_per
        let width := ents_per * ents_per
        if lbn2 < width then
          match ktfs_maa_dind d sb ds (ino.dindirect.getD 0 0) lbn2 with
          | Except.error e => Except.error e
          | Except.ok (abs, d1, nd) =>
              Except.ok (abs, d1, { ino with dindirect := ino.dindirect.set 0 nd })
        else if lbn2 - width < width then
          match ktfs_maa_dind d sb ds (ino.dindirect.getD 1 0) (lbn2 - width) with
          | Except.error e => Except.error e
          | Except.ok (abs, d1, nd) =>
              Except.ok (abs, d1, { ino with dindirect := ino.dindirect.set 1 nd })
        else Except.error (-6)

/-- Open file handle state of a KTFS file uio (struct ktfs_file /
struct ktfs_uio, src/sys/ktfs.c:46-59): file size snapshot, position, and
inode number. -/
structure KtfsFileHandle where
  size : Nat
  position : Nat
  inode_number : Nat
deriving DecidableEq

/-- width consecutive bytes of a block starting at off. -/
def blockSlice (b : Block) (off width : Nat) : List Nat :=
  (List.range width).map (fun k => b (off + k))

/-- The copy loop of ktfs_fetch (src/sys/ktfs.c:392-417), reading rem bytes
starting at file offset cur.  Each iteration consumes at least one byte, so
the iteration count is bounded by rem; the first argument is that bound,
passed as structural fuel (ktfs_fetch supplies fuel = rem, so the fuel is
never exhausted). -/
def ktfs_fetch_go (d : Disk) (sb : KtfsSuperblock) (ino : KtfsInode) :
    Nat → Nat → Nat → Except Int (List Nat)
  | 0, _, _ => Except.ok []
  | fuel + 1, cur, rem =>
    if rem = 0 then Except.ok []
    else
      let off := cur % KTFS_BLKSZ
      let width := min rem (KTFS_BLKSZ - off)
      match ktfs_map_block d sb ino (cur / KTFS_BLKSZ) with
      | Except.error e =>
          if e = -6 then
            match ktfs_fetch_go d sb ino fuel (cur + width) (rem - width) with
            | Except.error e2 => Except.error e2
            | Except.ok rest => Except.ok (List.replicate width 0 ++ rest)
          else Except.error e
      | Except.ok abs =>
          match ktfs_fetch_go d sb ino fuel (cur + width) (rem - width) with
          | Except.error e2 => Except.error e2
          | Except.ok rest => Except.ok (blockSlice (d abs) off width ++ rest)

/-- Embeds ktfs_fetch (src/sys/ktfs.c:346-426): refresh the inode, return 0
bytes at or past EOF, clamp the length to the bytes remaining in the file,
copy block by block (zero-filling on -ENOENT from the mapper), and advance
the position by the bytes copied. -/
def ktfs_fetch (d : Disk) (h : KtfsFileHandle) (len : Nat) :
    Except Int (List Nat × KtfsFileHandle) :=
  if len = 0 then Except.ok ([], h)
  else
    let sb := ktfs_read_super d
    let ino := ktfs_inode_grab d sb h.inode_number
    let size := ino.size
    let pos := h.position
    let h1 := { h with size := ino.size }
    if size ≤ pos then Except.ok ([], h1)
    else
      let read_size := min len (size - pos)
      match ktfs_fetch_go d sb ino read_size pos read_size with
      | Except.error e => Except.error e
      | Except.ok bytes => Except.ok (bytes, { h1 with position := pos + read_size })

/-- The extension loop of ktfs_store (src/sys/ktfs.c:511-521) and of the
FCNTL_SETEND path of ktfs_cntl (src/sys/ktfs.c:1005-1013): allocate-and-map
every logical block number in [x, stop), threading the disk and the in-memory
inode.  Fuel is stop - x. -/
def storeAllocLoop (sb : KtfsSuperblock) (stop : Nat) :
    Nat → Disk → KtfsInode → Nat → Except Int (Disk × KtfsInode)
  | 0, d, ino, _ => Except.ok (d, ino)
  | fuel + 1, d, ino, x =>
    if x < stop then
      match ktfs_map_block_and_or_allocate d sb ino x true with
      | Except.error e => Except.error e
      | Except.ok (_, d1, ino1) => storeAllocLoop sb stop fuel d1 ino1 (x + 1)
    else Except.ok (d, ino)

/-- The copy loop of ktfs_store (src/sys/ktfs.c:525-552): write chunks block
by block from file offset fOffset up to write_end, mapping (and allocating if
needed) each block, and marking each written block dirty.  Each iteration
writes at least one byte, so fuel = write_end - fOffset iterations suffice. -/
def storeCopyLoop (sb : KtfsSuperblock) (buf : Nat → Nat) (pos write_end : Nat) :
    Nat → Disk → KtfsInode → Nat → Except Int (Disk × KtfsInode)
  | 0, d, ino, _ => Except.ok (d, ino)
  | fuel + 1, d, ino, fOffset =>
    if fOffset < write_end then
      let lbn := fOffset / KTFS_BLKSZ
      let off_in_block := fOffset % KTFS_BLKSZ
      let chunk := min (write_end - fOffset) (KTFS_BLKSZ - off_in_block)
      match ktfs_map_block_and_or_allocate d sb ino lbn true with
      | Except.error e => Except.error e
      | Except.ok (abs, d1, ino1) =>
          let old := d1 abs
          let b' := fun j =>
            if off_in_block ≤ j ∧ j < off_in_block + chunk then
              buf (fOffset - pos + (j - off_in_block))
            else old j
          storeCopyLoop sb buf pos write_end fuel (diskSetBlock d1 abs b') ino1 (fOffset + chunk)
    else Except.ok (d, ino)

/-- Embeds ktfs_store (src/sys/ktfs.c:436-572): reject writes starting at or
past KTFS_MAX_FILE_SIZE with -EINVAL, clamp the length to the remaining
headroom, allocate blocks beyond the current end, copy the payload block by
block, grow the inode size if the write extended the file, persist the inode,
and return the number of bytes written along with the new disk and handle
state.  (On loop completion fOffset equals write_end, so new_end is
write_end.) -/
def ktfs_store (d : Disk) (h : KtfsFileHandle) (buf : Nat → Nat) (len : Nat) :
    Except Int (Nat × Disk × KtfsFileHandle) :=
  if len = 0 then Except.ok (0, d, h)
  else
    let sb := ktfs_read_super d
    let ino := ktfs_inode_grab d sb h.inode_number
    let pos := h.position
    let size := ino.size
    if KTFS_MAX_FILE_SIZE ≤ pos then Except.error (-1)
    else
      let max_writable := KTFS_MAX_FILE_SIZE - pos
      let size_of_write := min len max_writable
      if size_of_write = 0 then Except.ok (0, d, h)
      else
        let write_end := pos + size_of_write
        match (if size < write_end then
                 let olderBlks := if size = 0 then 0 else (size + KTFS_BLKSZ - 1) / KTFS_BLKSZ
                 let new_blocks := (write_end + KTFS_BLKSZ - 1) / KTFS_BLKSZ
                 storeAllocLoop sb new_blocks (new_blocks - olderBlks) d ino olderBlks
               else Except.ok (d, ino)) with
        | Except.error e => Except.error e
        | Except.ok (d1, ino1) =>
            match storeCopyLoop sb buf pos write_end (write_end - pos) d1 ino1 pos with
            | Except.error e => Except.error e
            | Except.ok (d2, ino2) =>
                let new_end := write_end
                let ino3 := if size < new_end then { ino2 with size := new_end % 4294967296 }
                            else ino2
                let d3 := ktfs_write_to_ino d2 sb h.inode_number ino3
                Except.ok (new_end - pos, d3,
                  { size := ino3.size, position := new_end, inode_number := h.inode_number })

/-- Result of ktfs_cntl: the returned code, the value passed back through arg
for the GET operations, and the disk and handle afterwards (unchanged on
error paths, matching the source, which returns before mutating anything). -/
structure KtfsCntlResult where
  ret : Int
  out : Option Nat
  d : Disk
  h : KtfsFileHandle

/-- Embeds ktfs_cntl (src/sys/ktfs.c:929-1058) for commands FCNTL_GETEND (0),
FCNTL_SETEND (1), FCNTL_GETPOS (2), FCNTL_SETPOS (3); anything else returns
-ENOTSUP.  The SETEND path rejects a new end above KTFS_MAX_FILE_SIZE or
below the current inode size with -EINVAL before any mutation; growth
allocates every block up to the new end, commits the new size to the inode
and clamps the handle position.  (On an allocation error the model returns
the pre-call disk; no claim depends on the partially-allocated state the C
leaves behind in that case.) -/
def ktfs_cntl (d : Disk) (h : KtfsFileHandle) (cmd : Nat) (arg : Nat) : KtfsCntlResult :=
  if cmd = 0 then
    { ret := 0, out := some h.size, d := d, h := h }
  else if cmd = 1 then
    let newend := arg
    let sb := ktfs_read_super d
    let ino := ktfs_inode_grab d sb h.inode_number
    if KTFS_MAX_FILE_SIZE < newend then { ret := -1, out := none, d := d, h := h }
    else
      let old_size := ino.size
      if newend < old_size then { ret := -1, out := none, d := d, h := h }
      else if newend = old_size then
        let h1 := { h with size := ino.size }
        let h2 := if h1.size < h1.position then { h1 with position := h1.size } else h1
        { ret := 0, out := none, d := d, h := h2 }
      else
        let startingBlock := if old_size = 0 then 0 else (old_size + KTFS_BLKSZ - 1) / KTFS_BLKSZ
        let endingBlocks := (newend + KTFS_BLKSZ - 1) / KTFS_BLKSZ
        match storeAllocLoop sb endingBlocks (endingBlocks - startingBlock) d ino startingBlock with
        | Except.error e => { ret := e, out := none, d := d, h := h }
        | Except.ok (d1, ino1) =>
            let ino2 := { ino1 with size := newend % 4294967296 }
            let d2 := ktfs_write_to_ino d1 sb h.inode_number ino2
            let h1 := { h with size := ino2.size }
            let h2 := if h1.size < h1.position then { h1 with position := h1.size } else h1
            { ret := 0, out := none, d := d2, h := h2 }
  else if cmd = 2 then
    { ret := 0, out := some h.position, d := d, h := h }
  else if cmd = 3 then
    if KTFS_MAX_FILE_SIZE < arg then { ret := -1, out := none, d := d, h := h }
    else { ret := 0, out := none, d := d, h := { h with position := arg } }
  else
    { ret := -3, out := none, d := d, h := h }

/-- Embeds ktfs_dir_get_entry (src/sys/ktfs.c:1256-1297): bounds-check the
index against the directory inode, map the containing block and copy the
16-byte entry out, forcing a NUL at name byte 13.  The result is the entry
inode number and the 14 name bytes. -/
def ktfs_dir_get_entry (d : Disk) (sb : KtfsSuperblock) (dir_ino : KtfsInode) (idx : Nat) :
    Except Int (Nat × List Nat) :=
  let entry_size := 16
  if dir_ino.size % entry_size ≠ 0 then Except.error (-4)
  else
    let nents := dir_ino.size / entry_size
    if nents ≤ idx then Except.error (-6)
    else
      let off := entry_size * idx
      let lbn := off / KTFS_BLKSZ
      let off_in_block := off % KTFS_BLKSZ
      match ktfs_map_block d sb dir_ino lbn with
      | Except.error e => Except.error e
      | Except.ok abs =>
          let blk := d abs
          let ino := leU16 blk off_in_block
          let name := ((List.range 13).map (fun k => blk (off_in_block + 2 + k))) ++ [0]
          Except.ok (ino, name)

/-- C strncmp(a, b, n) == 0 on byte strings: compare up to n bytes, stopping
early at a NUL; a list end stands for the terminating NUL of the C string. -/
def cstrncmpEq : Nat → List Nat → List Nat → Bool
  | 0, _, _ => true
  | n + 1, a, b =>
      let x := a.headD 0
      let y := b.headD 0
      if x ≠ y then false
      else if x = 0 then true
      else cstrncmpEq n a.tail b.tail

/-- The directory scan of ktfs_open (src/sys/ktfs.c:284-301): walk the
entries from index i, skipping -ENOENT slots, propagating other errors, and
returning the inode number of the first entry whose name matches the first
13 characters of the requested name.  Fuel is total - i. -/
def openScanLoop (d : Disk) (sb : KtfsSuperblock) (root : KtfsInode) (name : List Nat)
    (total : Nat) : Nat → Nat → Except Int (Option Nat)
  | 0, _ => Except.ok none
  | fuel + 1, i =>
    if i < total then
      match ktfs_dir_get_entry d sb root i with
      | Except.error e =>
          if e = -6 then openScanLoop d sb root name total fuel (i + 1)
          else Except.error e
      | Except.ok (eno, ename) =>
          if cstrncmpEq 13 ename name then Except.ok (some eno)
          else openScanLoop d sb root name total fuel (i + 1)
    else Except.ok none

/-- What ktfs_open produces: a directory-listing uio (struct ktfs_listing_uio,
src/sys/ktfs.c:61-68) holding snapshots of the superblock and root inode with
next_index 0, or a file uio with a fresh handle. -/
inductive KtfsOpenResult where
  | listing (super : KtfsSuperblock) (root : KtfsInode) (next_index total_entries : Nat)
  | file (h : KtfsFileHandle)
deriving DecidableEq

/-- Embeds ktfs_open (src/sys/ktfs.c:184-327).  An empty name is rejected by
the `!*name` argument check with -EINVAL (which makes the later
`*n == '\0'` listing test dead code for ""); a name of "/" strips the slash,
becomes empty and opens a listing that snapshots the superblock and root
inode at open time; any other name (with a leading slash stripped) is looked
up in the root directory. -/
def ktfs_open (d : Disk) (name : List Nat) : Except Int KtfsOpenResult :=
  if name = [] then Except.error (-1)
  else
    let slash := name.headD 0 = 47
    let n := if slash then name.tail else name
    let is_listing := slash ∧ n = []
    if is_listing then
      let sb := ktfs_read_super d
      let root := ktfs_inode_grab d sb sb.root_directory_inode
      if root.size % 16 ≠ 0 then Except.error (-4)
      else Except.ok (KtfsOpenResult.listing sb root 0 (root.size / 16))
    else
      let sb := ktfs_read_super d
      let root := ktfs_inode_grab d sb sb.root_directory_inode
      let total := root.size / 16
      match openScanLoop d sb root n total total 0 with
      | Except.error e => Except.error e
      | Except.ok none => Except.error (-6)
      | Except.ok (some fino) =>
          let tgt := ktfs_inode_grab d sb fino
          Except.ok (KtfsOpenResult.file { size := tgt.size, position := 0, inode_number := fino })

/- ==================== Concrete filesystem images ========================= -/

/-- A block of zero bytes. -/
def zeroBlock : Block := fun _ => 0

/-- Superblock block for the concrete images: block_count 100, one inode
bitmap block, one data bitmap block, one inode table block, root inode 0,
giving layout anchors ibs=1, dbs=2, its=3, data_start=4. -/
def sbBlockC : Block := fun i =>
  if i = 0 then 100 else if i = 4 then 1 else if i = 8 then 1 else if i = 12 then 1 else 0

/-- Inode table block in which inode 1 has size 512 (bytes 32..63 hold inode
1; byte 33 = 2 encodes size 0x200) and every block index is 0: its only
logical block is a hole. -/
def inoBlockHole : Block := fun i => if i = 33 then 2 else 0

/-- Concrete image for the hole-read check: inode 1 is a 512-byte file whose
direct index 0 is a hole (stored index 0), while the first data block
(absolute block 4 = data_start + 0) is filled with the byte 7. -/
def dHole : Disk := fun b =>
  if b = 0 then sbBlockC
  else if b = 3 then inoBlockHole
  else if b = 4 then (fun _ => 7)
  else zeroBlock

/-- Handle for inode 1 of dHole at position 0. -/
def hHole : KtfsFileHandle := { size := 512, position := 0, inode_number := 1 }

/-- Handle for inode 1 positioned exactly at KTFS_MAX_FILE_SIZE. -/
def hAtMax : KtfsFileHandle := { size := 512, position := KTFS_MAX_FILE_SIZE, inode_number := 1 }

/-- Inode table block in which inode 1 has size 512 and direct index 0 equal
to 1 (byte 36), mapping its first logical block to absolute block 5. -/
def inoBlockMapped : Block := fun i => if i = 33 then 2 else if i = 36 then 1 else 0

/-- Concrete image with inode 1 a 512-byte file fully mapped at block 5. -/
def dMapped : Disk := fun b =>
  if b = 0 then sbBlockC
  else if b = 3 then inoBlockMapped
  else zeroBlock

/-- Handle for inode 1 of dMapped at position 0. -/
def hMapped : KtfsFileHandle := { size := 512, position := 0, inode_number := 1 }

/- ==================== Concrete cache states ============================== -/

/-- A cache entry as initialized by create_cache (src/sys/cache.c:89-111):
invalid, clean, unpinned, no owner. -/
def freshCacheEntry : CacheEntry :=
  { block_n := 0, data := fun _ => 0, dirty := false, valid := false,
    access_time := 0, in_use := false, owner_tid := -1 }

/-- A freshly created cache over an all-zero storage device. -/
def cFresh : CacheSt :=
  { stor := fun _ _ => 0, entries := List.replicate 64 freshCacheEntry,
    timer := 0, last_used := -1 }

/-- A valid entry for block 5 pinned by thread 1. -/
def pinnedEntry : CacheEntry :=
  { block_n := 5, data := fun _ => 0, dirty := false, valid := true,
    access_time := 3, in_use := true, owner_tid := 1 }

/-- A cache whose 64 entries are all pinned by thread 1. -/
def cAllPinned : CacheSt :=
  { stor := fun _ _ => 0, entries := List.replicate 64 pinnedEntry,
    timer := 0, last_used := -1 }

/-- An LRU candidate: a valid, unpinned entry. -/
def lruCand (e : CacheEntry) : Prop := e.valid = true ∧ e.in_use = false

/-- State of a cache after a successful cache_get_block by thread t for
block number p returning entry index i: the entry is pinned to t with the
requested block number, no earlier entry is a valid match, the pinned entry
is the only pinned one and is recorded in last_used, and the entry count is
unchanged. -/
def PostGet (c0 c1 : CacheSt) (i : Nat) (t : Int) (p : Nat) : Prop :=
  c1.entries.length = c0.entries.length ∧
  (∃ e1, c1.entries.get? i = some e1 ∧ e1.block_n = p ∧ e1.valid = true ∧
     e1.in_use = true ∧ e1.owner_tid = t) ∧
  (∀ j e, j < i → c1.entries.get? j = some e → ¬ (e.block_n = p ∧ e.valid = true)) ∧
  (∀ j e, c1.entries.get? j = some e → e.in_use = true → j = i) ∧
  c1.last_used = Int.ofNat i

/- ==================== Theorems =========================================== -/

/-- C1 (code-bug evidence): for every U-mode page-fault cause (scause 12, 13,
15) the page-fault hook returns 0 (unhandled), and handle_umode_exception
then RETURNS, resuming the faulting user instruction; it never reaches the
log-and-process_exit path, contrary to the hook's documented contract and
the specification. -/
theorem c1_unhandled_umode_page_fault_resumes :
    handle_umode_exception 13 0 0 = UmodeOutcome.resumed ∧
    handle_umode_exception 12 0 0 = UmodeOutcome.resumed ∧
    handle_umode_exception 15 0 0 = UmodeOutcome.resumed :=
  ⟨rfl, rfl, rfl⟩

/-- C9: after lock_init and after every completed lock_acquire or
lock_release (under the release asserts owner == TP and cnt != 0), the
invariant count == 0 iff owner == nil holds; in particular a lock with a
positive count has a non-nil owner. -/
theorem c9_lock_count_owner_invariant :
    lockInv lock_init ∧
    (∀ t l, lockInv l → lockInv (lock_acquire t l)) ∧
    (∀ t l, lockInv l → l.owner = some t → l.cnt ≠ 0 → lockInv (lock_release l)) ∧
    (∀ l, lockInv l → 0 < l.cnt → l.owner ≠ none) := by
  refine ⟨⟨fun _ => rfl, fun _ => rfl⟩, ?_, ?_, ?_⟩
  · intro t l _
    unfold lock_acquire lockInv
    by_cases ho : l.owner = some t <;> simp [ho]
  · intro t l _ hown hcnt
    unfold lock_release lockInv
    by_cases hc : l.cnt - 1 = 0 <;> simp [hc, hown]
  · intro l h hpos hnone
    have : l.cnt = 0 := h.mpr hnone
    omega

/-- C9 witness: the invariant conclusions instantiated at concrete locks. -/
theorem c9_lock_count_owner_invariant_witness :
    lockInv (lock_acquire 5 { owner := none, cnt := 0 }) ∧
    lockInv (lock_release { owner := some 5, cnt := 1 }) :=
  ⟨c9_lock_count_owner_invariant.2.1 5 { owner := none, cnt := 0 } (by decide),
   c9_lock_count_owner_invariant.2.2.1 5 { owner := some 5, cnt := 1 } (by decide)
     (by decide) (by decide)⟩

/-- C5 counterexample: a valid global leaf PTE with flags V|R|G|A|D = 227 at
the walk target of vpn 0; set_range_flags over that one page with the mask
PTE_R = 2 yields flags 195 = V|R|A|D: the G bit (32) is NOT preserved but
overwritten from the mask, contradicting the claim that A, D, V and G are
all preserved. -/
theorem c5_counterexample_g_overwritten :
    (memC5 0 0).flags = 227 ∧
    pteLeaf (memC5 0 0) = true ∧
    ptab_fetch memC5 0 0 = some (0, 0) ∧
    (set_range_flags memC5 0 0 4096 2 0 0).flags = 195 :=
  ⟨rfl, rfl, rfl, by decide⟩

/-- ptab_fetch written without let bindings, for rewriting. -/
theorem ptab_fetch_eq (m : PtMem) (root vpn : Nat) :
    ptab_fetch m root vpn =
      (if ¬ pteValid (m root (PT_INDEX 2 vpn)) then none
       else if pteLeaf (m root (PT_INDEX 2 vpn)) then some (root, PT_INDEX 2 vpn)
       else if ¬ pteValid (m (m root (PT_INDEX 2 vpn)).ppn (PT_INDEX 1 vpn)) then none
       else if pteLeaf (m (m root (PT_INDEX 2 vpn)).ppn (PT_INDEX 1 vpn)) then
         some ((m root (PT_INDEX 2 vpn)).ppn, PT_INDEX 1 vpn)
       else if ¬ pteValid (m (m (m root (PT_INDEX 2 vpn)).ppn (PT_INDEX 1 vpn)).ppn
           (PT_INDEX 0 vpn)) then none
       else some ((m (m root (PT_INDEX 2 vpn)).ppn (PT_INDEX 1 vpn)).ppn, PT_INDEX 0 vpn)) :=
  rfl

/-- A slot resolved by ptab_fetch holds a valid PTE (the walk checks V before
returning at every level). -/
theorem ptab_fetch_valid (m : PtMem) (root vpn t i : Nat)
    (h : ptab_fetch m root vpn = some (t, i)) : pteValid (m t i) = true := by
  rw [ptab_fetch_eq] at h
  by_cases h2 : pteValid (m root (PT_INDEX 2 vpn)) = true
  · rw [if_neg (not_not_intro h2)] at h
    by_cases hl2 : pteLeaf (m root (PT_INDEX 2 vpn)) = true
    · rw [if_pos hl2] at h
      injection h with hp
      injection hp with ht hi
      subst ht
      subst hi
      exact h2
    · rw [if_neg hl2] at h
      by_cases h1 : pteValid (m (m root (PT_INDEX 2 vpn)).ppn (PT_INDEX 1 vpn)) = true
      · rw [if_neg (not_not_intro h1)] at h
        by_cases hl1 : pteLeaf (m (m root (PT_INDEX 2 vpn)).ppn (PT_INDEX 1 vpn)) = true
        · rw [if_pos hl1] at h
          injection h with hp
          injection hp with ht hi
          subst ht
          subst hi
          exact h1
        · rw [if_neg hl1] at h
          by_cases h0 : pteValid (m (m (m root (PT_INDEX 2 vpn)).ppn (PT_INDEX 1 vpn)).ppn
              (PT_INDEX 0 vpn)) = true
          · rw [if_neg (not_not_intro h0)] at h
            injection h with hp
            injection hp with ht hi
            subst ht
            subst hi
            exact h0
          · rw [if_pos h0] at h
            exact Option.noConfusion h
      · rw [if_pos h1] at h
        exact Option.noConfusion h
  · rw [if_pos h2] at h
    exact Option.noConfusion h

/-- Walk stability: if every slot where M differs from m held, in m, a valid
leaf PTE that is not the slot vpn's walk resolves to, then the walk of vpn is
the same in M and in m.  (A changed slot cannot be an intermediate slot of the
walk, because intermediate slots are valid non-leaf in m.) -/
theorem ptab_fetch_stable (m M : PtMem) (root vpn : Nat)
    (h : ∀ t i, M t i ≠ m t i →
        pteValid (m t i) = true ∧ pteLeaf (m t i) = true ∧
        ptab_fetch m root vpn ≠ some (t, i)) :
    ptab_fetch M root vpn = ptab_fetch m root vpn := by
  have e2eq : M root (PT_INDEX 2 vpn) = m root (PT_INDEX 2 vpn) := by
    by_contra hne
    obtain ⟨hv, hl, hns⟩ := h root (PT_INDEX 2 vpn) hne
    exact hns (by rw [ptab_fetch_eq, if_neg (not_not_intro hv), if_pos hl])
  rw [ptab_fetch_eq, ptab_fetch_eq, e2eq]
  by_cases h2 : pteValid (m root (PT_INDEX 2 vpn)) = true
  · rw [if_neg (not_not_intro h2), if_neg (not_not_intro h2)]
    by_cases hl2 : pteLeaf (m root (PT_INDEX 2 vpn)) = true
    · rw [if_pos hl2, if_pos hl2]
    · rw [if_neg hl2, if_neg hl2]
      have e1eq : M (m root (PT_INDEX 2 vpn)).ppn (PT_INDEX 1 vpn)
          = m (m root (PT_INDEX 2 vpn)).ppn (PT_INDEX 1 vpn) := by
        by_contra hne
        obtain ⟨hv, hl, hns⟩ := h _ _ hne
        exact hns (by
          rw [ptab_fetch_eq, if_neg (not_not_intro h2), if_neg hl2,
            if_neg (not_not_intro hv), if_pos hl])
      rw [e1eq]
      by_cases h1 : pteValid (m (m root (PT_INDEX 2 vpn)).ppn (PT_INDEX 1 vpn)) = true
      · rw [if_neg (not_not_intro h1), if_neg (not_not_intro h1)]
        by_cases hl1 : pteLeaf (m (m root (PT_INDEX 2 vpn)).ppn (PT_INDEX 1 vpn)) = true
        · rw [if_pos hl1, if_pos hl1]
        · rw [if_neg hl1, if_neg hl1]
          have e0eq : M (m (m root (PT_INDEX 2 vpn)).ppn (PT_INDEX 1 vpn)).ppn (PT_INDEX 0 vpn)
              = m (m (m root (PT_INDEX 2 vpn)).ppn (PT_INDEX 1 vpn)).ppn (PT_INDEX 0 vpn) := by
            by_contra hne
            obtain ⟨hv, hl, hns⟩ := h _ _ hne
            exact hns (by
              rw [ptab_fetch_eq, if_neg (not_not_intro h2), if_neg hl2,
                if_neg (not_not_intro h1), if_neg hl1, if_neg (not_not_intro hv)])
          rw [e0eq]
      · rw [if_pos h1, if_pos h1]
  · rw [if_pos h2, if_pos h2]

/-- ptab_adjust on an unmapped vpn leaves the tables unchanged. -/
theorem ptab_adjust_none_eq (m : PtMem) (root vpn mask : Nat)
    (hf : ptab_fetch m root vpn = none) :
    ptab_adjust m root vpn mask = m := by
  unfold ptab_adjust
  rw [hf]

/-- ptab_adjust on a vpn whose walk ends on a non-leaf entry leaves the
tables unchanged. -/
theorem ptab_adjust_nonleaf_eq (m : PtMem) (root vpn mask t i : Nat)
    (hf : ptab_fetch m root vpn = some (t, i)) (hl : pteLeaf (m t i) = false) :
    ptab_adjust m root vpn mask = m := by
  unfold ptab_adjust
  rw [hf]
  simp [hl]

/-- ptab_adjust on a vpn whose walk reaches a leaf writes that one slot with
the A|D|V-preserving, mask-overwriting flag update. -/
theorem ptab_adjust_leaf_eq (m : PtMem) (root vpn mask t i : Nat)
    (hf : ptab_fetch m root vpn = some (t, i)) (hl : pteLeaf (m t i) = true) :
    ptab_adjust m root vpn mask =
      ptmSet m t i { m t i with flags := ((m t i).flags &&& 193) ||| (mask % 256) } := by
  unfold ptab_adjust
  rw [hf]
  simp [hl]

/-- Unfolding adjFold one page at a time. -/
theorem adjFold_succ (m : PtMem) (root vpn0 mask n : Nat) :
    adjFold m root vpn0 mask (n + 1) =
      ptab_adjust (adjFold m root vpn0 mask n) root (vpn0 + n) mask := by
  unfold adjFold
  rw [List.range_succ, List.foldl_append]
  rfl

/-- For a non-empty range, set_range_flags is adjFold over the
ceil(size / PAGE_SIZE) pages starting at VPN(vma). -/
theorem set_range_flags_eq_adjFold (m : PtMem) (root vma sz mask : Nat) (h : ¬ sz = 0) :
    set_range_flags m root vma sz mask =
      adjFold m root (vma / PAGE_SIZE) mask ((sz + PAGE_SIZE - 1) / PAGE_SIZE) := by
  unfold set_range_flags adjFold
  rw [if_neg h]

/-- The page loop of set_range_flags, characterized: provided the walks of
distinct pages never resolve to the same leaf slot, every slot outside the
resolved leaf slots keeps its original PTE, and every resolved leaf slot gets
exactly the A|D|V-preserving flag update. -/
theorem adjFold_spec (m : PtMem) (root vpn0 mask : Nat) :
    ∀ n : Nat,
    (∀ j k, j < n → k < n → j ≠ k → ∀ t i,
        ptab_fetch m root (vpn0 + j) = some (t, i) → pteLeaf (m t i) = true →
        ptab_fetch m root (vpn0 + k) ≠ some (t, i)) →
    (∀ t i, ¬ leafSlotIn m root vpn0 n t i → adjFold m root vpn0 mask n t i = m t i) ∧
    (∀ j, j < n → ∀ t i, ptab_fetch m root (vpn0 + j) = some (t, i) →
        pteLeaf (m t i) = true →
        adjFold m root vpn0 mask n t i =
          { m t i with flags := ((m t i).flags &&& 193) ||| (mask % 256) }) := by
  intro n
  induction n with
  | zero =>
      intro _
      exact ⟨fun t i _ => rfl, fun j hj => absurd hj (Nat.not_lt_zero j)⟩
  | succ n ih =>
      intro hdisj
      have hdisj' : ∀ j k, j < n → k < n → j ≠ k → ∀ t i,
          ptab_fetch m root (vpn0 + j) = some (t, i) → pteLeaf (m t i) = true →
          ptab_fetch m root (vpn0 + k) ≠ some (t, i) := by
        intro j k hj hk hjk t i hf hl
        exact hdisj j k (by omega) (by omega) hjk t i hf hl
      obtain ⟨ihF, ihU⟩ := ih hdisj'
      have hstab : ptab_fetch (adjFold m root vpn0 mask n) root (vpn0 + n)
          = ptab_fetch m root (vpn0 + n) := by
        apply ptab_fetch_stable
        intro t i hne
        by_cases hsl : leafSlotIn m root vpn0 n t i
        · unfold leafSlotIn at hsl
          obtain ⟨j, hj, hfj, hlj⟩ := hsl
          exact ⟨ptab_fetch_valid m root (vpn0 + j) t i hfj, hlj,
            hdisj j n (by omega) (by omega) (by omega) t i hfj hlj⟩
        · exact absurd (ihF t i hsl) hne
      cases hcase : ptab_fetch m root (vpn0 + n) with
      | none =>
          have hfM : ptab_fetch (adjFold m root vpn0 mask n) root (vpn0 + n) = none := by
            rw [hstab]
            exact hcase
          have hadj := ptab_adjust_none_eq (adjFold m root vpn0 mask n) root (vpn0 + n) mask hfM
          constructor
          · intro t i hns
            rw [adjFold_succ, hadj]
            apply ihF
            intro hsl
            unfold leafSlotIn at hsl hns
            obtain ⟨j, hj, hfj, hlj⟩ := hsl
            exact hns ⟨j, by omega, hfj, hlj⟩
          · intro j hj t i hfj hlj
            rw [adjFold_succ, hadj]
            by_cases hjn : j = n
            · subst hjn
              rw [hcase] at hfj
              exact Option.noConfusion hfj
            · exact ihU j (by omega) t i hfj hlj
      | some s =>
          obtain ⟨a, b⟩ := s
          by_cases hlf : pteLeaf (m a b) = true
          · have hnot : ¬ leafSlotIn m root vpn0 n a b := by
              intro hsl
              unfold leafSlotIn at hsl
              obtain ⟨j, hj, hfj, hlj⟩ := hsl
              exact hdisj j n (by omega) (by omega) (by omega) a b hfj hlj hcase
            have hMab : adjFold m root vpn0 mask n a b = m a b := ihF a b hnot
            have hfM : ptab_fetch (adjFold m root vpn0 mask n) root (vpn0 + n) = some (a, b) := by
              rw [hstab]
              exact hcase
            have hlM : pteLeaf (adjFold m root vpn0 mask n a b) = true := by
              rw [hMab]
              exact hlf
            have hadj := ptab_adjust_leaf_eq (adjFold m root vpn0 mask n) root (vpn0 + n)
              mask a b hfM hlM
            rw [hMab] at hadj
            constructor
            · intro t i hns
              have hne : ¬ (t = a ∧ i = b) := by
                intro hh
                obtain ⟨ht, hi⟩ := hh
                subst ht
                subst hi
                refine hns ?_
                unfold leafSlotIn
                exact ⟨n, by omega, hcase, hlf⟩
              have hns' : ¬ leafSlotIn m root vpn0 n t i := by
                intro hsl
                unfold leafSlotIn at hsl hns
                obtain ⟨j, hj, hfj, hlj⟩ := hsl
                exact hns ⟨j, by omega, hfj, hlj⟩
              rw [adjFold_succ, hadj]
              simp only [ptmSet]
              rw [if_neg hne]
              exact ihF t i hns'
            · intro j hj t i hfj hlj
              rw [adjFold_succ, hadj]
              by_cases hjn : j = n
              · subst hjn
                rw [hcase] at hfj
                injection hfj with hp
                injection hp with ht hi
                subst ht
                subst hi
                simp only [ptmSet]
                rw [if_pos ⟨trivial, trivial⟩]
              · have hne : ¬ (t = a ∧ i = b) := by
                  intro hh
                  obtain ⟨ht, hi⟩ := hh
                  subst ht
                  subst hi
                  exact hdisj j n (by omega) (by omega) hjn t i hfj hlj hcase
                simp only [ptmSet]
                rw [if_neg hne]
                exact ihU j (by omega) t i hfj hlj
          · have hlf0 : pteLeaf (m a b) = false := by
              cases hpt : pteLeaf (m a b)
              · rfl
              · exact absurd hpt hlf
            have hnot : ¬ leafSlotIn m root vpn0 n a b := by
              intro hsl
              unfold leafSlotIn at hsl
              obtain ⟨j, hj, hfj, hlj⟩ := hsl
              rw [hlf0] at hlj
              exact Bool.noConfusion hlj
            have hMab : adjFold m root vpn0 mask n a b = m a b := ihF a b hnot
            have hfM : ptab_fetch (adjFold m root vpn0 mask n) root (vpn0 + n) = some (a, b) := by
              rw [hstab]
              exact hcase
            have hlM : pteLeaf (adjFold m root vpn0 mask n a b) = false := by
              rw [hMab]
              exact hlf0
            have hadj := ptab_adjust_nonleaf_eq (adjFold m root vpn0 mask n) root (vpn0 + n)
              mask a b hfM hlM
            constructor
            · intro t i hns
              rw [adjFold_succ, hadj]
              apply ihF
              intro hsl
              unfold leafSlotIn at hsl hns
              obtain ⟨j, hj, hfj, hlj⟩ := hsl
              exact hns ⟨j, by omega, hfj, hlj⟩
            · intro j hj t i hfj hlj
              rw [adjFold_succ, hadj]
              by_cases hjn : j = n
              · subst hjn
                rw [hcase] at hfj
                injection hfj with hp
                injection hp with ht hi
                subst ht
                subst hi
                rw [hlf0] at hlj
                exact Bool.noConfusion hlj
              · exact ihU j (by omega) t i hfj hlj

/-- C5 (amended): over an arbitrary non-empty range, provided no two pages of
the range resolve to the same leaf PTE (distinct pages of a shared mega- or
gigapage leaf would adjust the same slot repeatedly), set_range_flags gives
every resolved leaf PTE exactly one update that preserves its A, D and V bits
(flags &&& 193) and overwrites the R, W, X, U and G bits from the caller's
mask, leaving the PPN and all other PTE fields unchanged; entries on which a
page's walk ends non-leaf, and every slot no page of the range resolves to as
a leaf, are left unchanged.  (The original claim also listed G as preserved;
the counterexample shows G comes from the mask instead.) -/
theorem c5_set_range_flags_flag_update (m : PtMem) (root vma mask sz : Nat)
    (hsz0 : 0 < sz)
    (hdisj : ∀ j k, j < (sz + PAGE_SIZE - 1) / PAGE_SIZE →
        k < (sz + PAGE_SIZE - 1) / PAGE_SIZE → j ≠ k → ∀ t i,
        ptab_fetch m root (vma / PAGE_SIZE + j) = some (t, i) → pteLeaf (m t i) = true →
        ptab_fetch m root (vma / PAGE_SIZE + k) ≠ some (t, i)) :
    (∀ j, j < (sz + PAGE_SIZE - 1) / PAGE_SIZE → ∀ t i,
        ptab_fetch m root (vma / PAGE_SIZE + j) = some (t, i) → pteLeaf (m t i) = true →
        (set_range_flags m root vma sz mask) t i =
          { m t i with flags := ((m t i).flags &&& 193) ||| (mask % 256) }) ∧
    (∀ j, j < (sz + PAGE_SIZE - 1) / PAGE_SIZE → ∀ t i,
        ptab_fetch m root (vma / PAGE_SIZE + j) = some (t, i) → pteLeaf (m t i) = false →
        (set_range_flags m root vma sz mask) t i = m t i) ∧
    (∀ t i, ¬ leafSlotIn m root (vma / PAGE_SIZE) ((sz + PAGE_SIZE - 1) / PAGE_SIZE) t i →
        (set_range_flags m root vma sz mask) t i = m t i) := by
  have hne0 : ¬ sz = 0 := by omega
  have heq := set_range_flags_eq_adjFold m root vma sz mask hne0
  have hspec := adjFold_spec m root (vma / PAGE_SIZE) mask ((sz + PAGE_SIZE - 1) / PAGE_SIZE) hdisj
  refine ⟨?_, ?_, ?_⟩
  · intro j hj t i hf hl
    rw [heq]
    exact hspec.2 j hj t i hf hl
  · intro j hj t i hf hl
    rw [heq]
    apply hspec.1
    intro hsl
    unfold leafSlotIn at hsl
    obtain ⟨j', hj', hf', hl'⟩ := hsl
    rw [hl] at hl'
    exact Bool.noConfusion hl'
  · intro t i hsl
    rw [heq]
    exact hspec.1 t i hsl

/-- C5 witness: the amended statement at the concrete tables memC5w, over the
two-page range [0, 8192) with the mask PTE_R = 2; the two pages resolve to the
distinct leaf slots (12, 0) and (12, 1). -/
theorem c5_set_range_flags_flag_update_witness :
    (∀ j, j < (8192 + PAGE_SIZE - 1) / PAGE_SIZE → ∀ t i,
        ptab_fetch memC5w 10 (0 / PAGE_SIZE + j) = some (t, i) → pteLeaf (memC5w t i) = true →
        (set_range_flags memC5w 10 0 8192 2) t i =
          { memC5w t i with flags := ((memC5w t i).flags &&& 193) ||| (2 % 256) }) ∧
    (∀ j, j < (8192 + PAGE_SIZE - 1) / PAGE_SIZE → ∀ t i,
        ptab_fetch memC5w 10 (0 / PAGE_SIZE + j) = some (t, i) → pteLeaf (memC5w t i) = false →
        (set_range_flags memC5w 10 0 8192 2) t i = memC5w t i) ∧
    (∀ t i, ¬ leafSlotIn memC5w 10 (0 / PAGE_SIZE) ((8192 + PAGE_SIZE - 1) / PAGE_SIZE) t i →
        (set_range_flags memC5w 10 0 8192 2) t i = memC5w t i) :=
  c5_set_range_flags_flag_update memC5w 10 0 2 8192 (by decide)
    (by
      intro j k hj hk hjk t i hf hl
      have hnp : (8192 + PAGE_SIZE - 1) / PAGE_SIZE = 2 := by decide
      rw [hnp] at hj hk
      have h0 : ptab_fetch memC5w 10 (0 / PAGE_SIZE + 0) = some (12, 0) := by decide
      have h1 : ptab_fetch memC5w 10 (0 / PAGE_SIZE + 1) = some (12, 1) := by decide
      have hcases : (j = 0 ∧ k = 1) ∨ (j = 1 ∧ k = 0) := by omega
      rcases hcases with ⟨hj0, hk1⟩ | ⟨hj1, hk0⟩
      · subst hj0
        subst hk1
        rw [h0] at hf
        injection hf with hp
        injection hp with ht hi
        subst ht
        subst hi
        rw [h1]
        decide
      · subst hj1
        subst hk0
        rw [h1] at hf
        injection hf with hp
        injection hp with ht hi
        subst ht
        subst hi
        rw [h0]
        decide)


/-- Step of the best-fit scan over a non-fitting head chunk. -/
theorem bestFitScan_cons_nofit (cnt : Nat) (c0 : PageChunk) (rest : List PageChunk)
    (i0 : Nat) (best : Option (Nat × Nat)) (h : ¬ cnt ≤ c0.pagecnt) :
    bestFitScan cnt (c0 :: rest) i0 best = bestFitScan cnt rest (i0 + 1) best := by
  show bestFitScan cnt rest (i0 + 1)
      (if cnt ≤ c0.pagecnt then
        match best with
        | none => some (i0, c0.pagecnt)
        | some (_, bp) => if c0.pagecnt < bp then some (i0, c0.pagecnt) else best
       else best) = bestFitScan cnt rest (i0 + 1) best
  rw [if_neg h]

/-- Step of the best-fit scan over a fitting head with no recorded best. -/
theorem bestFitScan_cons_first (cnt : Nat) (c0 : PageChunk) (rest : List PageChunk)
    (i0 : Nat) (h : cnt ≤ c0.pagecnt) :
    bestFitScan cnt (c0 :: rest) i0 none =
      bestFitScan cnt rest (i0 + 1) (some (i0, c0.pagecnt)) := by
  show bestFitScan cnt rest (i0 + 1)
      (if cnt ≤ c0.pagecnt then some (i0, c0.pagecnt) else none) = _
  rw [if_pos h]

/-- Step of the best-fit scan over a fitting head strictly better than the
recorded best. -/
theorem bestFitScan_cons_better (cnt : Nat) (c0 : PageChunk) (rest : List PageChunk)
    (i0 k0 pc0 : Nat) (h : cnt ≤ c0.pagecnt) (hlt : c0.pagecnt < pc0) :
    bestFitScan cnt (c0 :: rest) i0 (some (k0, pc0)) =
      bestFitScan cnt rest (i0 + 1) (some (i0, c0.pagecnt)) := by
  show bestFitScan cnt rest (i0 + 1)
      (if cnt ≤ c0.pagecnt then
        (if c0.pagecnt < pc0 then some (i0, c0.pagecnt) else some (k0, pc0))
       else some (k0, pc0)) = _
  rw [if_pos h, if_pos hlt]

/-- Step of the best-fit scan over a fitting head not better than the
recorded best. -/
theorem bestFitScan_cons_keep (cnt : Nat) (c0 : PageChunk) (rest : List PageChunk)
    (i0 k0 pc0 : Nat) (h : cnt ≤ c0.pagecnt) (hge : ¬ c0.pagecnt < pc0) :
    bestFitScan cnt (c0 :: rest) i0 (some (k0, pc0)) =
      bestFitScan cnt rest (i0 + 1) (some (k0, pc0)) := by
  show bestFitScan cnt rest (i0 + 1)
      (if cnt ≤ c0.pagecnt then
        (if c0.pagecnt < pc0 then some (i0, c0.pagecnt) else some (k0, pc0))
       else some (k0, pc0)) = _
  rw [if_pos h, if_neg hge]

/-- Extend a minimality bound over the tail of a chunk list to the whole
list, given the bound on the head. -/
theorem chunkMin_cons (cnt : Nat) (c0 : PageChunk) (rest : List PageChunk) (v : Nat)
    (hhead : cnt ≤ c0.pagecnt → v ≤ c0.pagecnt)
    (hmin : ∀ j c, rest.get? j = some c → cnt ≤ c.pagecnt → v ≤ c.pagecnt) :
    ∀ j c, (c0 :: rest).get? j = some c → cnt ≤ c.pagecnt → v ≤ c.pagecnt := by
  intro j c hg hc
  match j, hg with
  | 0, hg => simp at hg; subst hg; exact hhead hc
  | j' + 1, hg => exact hmin j' c (by simpa using hg) hc

/-- Best-fit scan from a recorded candidate (k0, pc0): either the candidate
is kept and every fitting chunk of the list has pagecnt at least pc0, or a
fitting chunk with pagecnt strictly below pc0 is selected whose pagecnt is
minimal among the fitting chunks of the list. -/
theorem bestFitScan_some_spec (cnt : Nat) (fl : List PageChunk) :
    ∀ (i0 k0 pc0 : Nat),
      (bestFitScan cnt fl i0 (some (k0, pc0)) = some (k0, pc0) ∧
        ∀ j c, fl.get? j = some c → cnt ≤ c.pagecnt → pc0 ≤ c.pagecnt)
      ∨ (∃ j c, fl.get? j = some c ∧ cnt ≤ c.pagecnt ∧ c.pagecnt < pc0 ∧
          bestFitScan cnt fl i0 (some (k0, pc0)) = some (i0 + j, c.pagecnt) ∧
          ∀ j' c', fl.get? j' = some c' → cnt ≤ c'.pagecnt → c.pagecnt ≤ c'.pagecnt) := by
  induction fl with
  | nil =>
      intro i0 k0 pc0
      left
      refine ⟨rfl, ?_⟩
      intro j c h hc
      simp at h
  | cons c0 rest ih =>
      intro i0 k0 pc0
      by_cases hfit : cnt ≤ c0.pagecnt
      · by_cases hlt : c0.pagecnt < pc0
        · rw [bestFitScan_cons_better cnt c0 rest i0 k0 pc0 hfit hlt]
          rcases ih (i0 + 1) i0 c0.pagecnt with ⟨heq, hmin⟩ | ⟨j, c, hg, hc, hlt2, heq, hmin⟩
          · right
            refine ⟨0, c0, by simp, hfit, hlt, by simpa using heq, ?_⟩
            exact chunkMin_cons cnt c0 rest c0.pagecnt (fun _ => le_refl _) hmin
          · right
            have hj : i0 + 1 + j = i0 + (j + 1) := by omega
            refine ⟨j + 1, c, by simpa using hg, hc, by omega, by rw [heq, hj], ?_⟩
            exact chunkMin_cons cnt c0 rest c.pagecnt (fun _ => by omega) hmin
        · rw [bestFitScan_cons_keep cnt c0 rest i0 k0 pc0 hfit hlt]
          rcases ih (i0 + 1) k0 pc0 with ⟨heq, hmin⟩ | ⟨j, c, hg, hc, hlt2, heq, hmin⟩
          · left
            exact ⟨heq, chunkMin_cons cnt c0 rest pc0 (fun _ => by omega) hmin⟩
          · right
            have hj : i0 + 1 + j = i0 + (j + 1) := by omega
            refine ⟨j + 1, c, by simpa using hg, hc, hlt2, by rw [heq, hj], ?_⟩
            exact chunkMin_cons cnt c0 rest c.pagecnt (fun _ => by omega) hmin
      · rw [bestFitScan_cons_nofit cnt c0 rest i0 (some (k0, pc0)) hfit]
        rcases ih (i0 + 1) k0 pc0 with ⟨heq, hmin⟩ | ⟨j, c, hg, hc, hlt2, heq, hmin⟩
        · left
          exact ⟨heq, chunkMin_cons cnt c0 rest pc0 (fun hh => absurd hh hfit) hmin⟩
        · right
          have hj : i0 + 1 + j = i0 + (j + 1) := by omega
          refine ⟨j + 1, c, by simpa using hg, hc, hlt2, by rw [heq, hj], ?_⟩
          exact chunkMin_cons cnt c0 rest c.pagecnt (fun hh => absurd hh hfit) hmin

/-- Best-fit scan from an empty accumulator: either no chunk fits and the
scan yields none, or it yields a fitting chunk of minimal pagecnt, with the
returned index relative to the starting index i0. -/
theorem bestFitScan_none_spec (cnt : Nat) (fl : List PageChunk) :
    ∀ (i0 : Nat),
      (bestFitScan cnt fl i0 none = none ∧
        ∀ j c, fl.get? j = some c → c.pagecnt < cnt)
      ∨ (∃ j c, fl.get? j = some c ∧ cnt ≤ c.pagecnt ∧
          bestFitScan cnt fl i0 none = some (i0 + j, c.pagecnt) ∧
          ∀ j' c', fl.get? j' = some c' → cnt ≤ c'.pagecnt → c.pagecnt ≤ c'.pagecnt) := by
  induction fl with
  | nil =>
      intro i0
      left
      refine ⟨rfl, ?_⟩
      intro j c h
      simp at h
  | cons c0 rest ih =>
      intro i0
      by_cases hfit : cnt ≤ c0.pagecnt
      · rw [bestFitScan_cons_first cnt c0 rest i0 hfit]
        rcases bestFitScan_some_spec cnt rest (i0 + 1) i0 c0.pagecnt with
          ⟨heq, hmin⟩ | ⟨j, c, hg, hc, hlt2, heq, hmin⟩
        · right
          refine ⟨0, c0, by simp, hfit, by simpa using heq, ?_⟩
          exact chunkMin_cons cnt c0 rest c0.pagecnt (fun _ => le_refl _) hmin
        · right
          have hj : i0 + 1 + j = i0 + (j + 1) := by omega
          refine ⟨j + 1, c, by simpa using hg, hc, by rw [heq, hj], ?_⟩
          exact chunkMin_cons cnt c0 rest c.pagecnt (fun _ => by omega) hmin
      · rw [bestFitScan_cons_nofit cnt c0 rest i0 none hfit]
        rcases ih (i0 + 1) with ⟨heq, hmin⟩ | ⟨j, c, hg, hc, heq, hmin⟩
        · left
          refine ⟨heq, ?_⟩
          intro j c hg
          match j, hg with
          | 0, hg => simp at hg; subst hg; omega
          | j' + 1, hg => exact hmin j' c (by simpa using hg)
        · right
          have hj : i0 + 1 + j = i0 + (j + 1) := by omega
          refine ⟨j + 1, c, by simpa using hg, hc, by rw [heq, hj], ?_⟩
          exact chunkMin_cons cnt c0 rest c.pagecnt (fun hh => absurd hh hfit) hmin

/-- C7: alloc_phys_pages policy.  cnt = 0 returns nil; if no chunk can
satisfy the request the call panics; otherwise the chosen chunk has the
smallest page count ≥ cnt over the free list, an exact fit is unlinked and
its base address returned, and otherwise the last cnt pages are carved from
the high end of the chunk, whose pagecnt is reduced by cnt in place. -/
theorem c7_alloc_phys_pages_policy (cnt : Nat) (fl : List PageChunk) :
    (alloc_phys_pages 0 fl = AllocResult.null) ∧
    (0 < cnt → (∀ j c, fl.get? j = some c → c.pagecnt < cnt) →
       alloc_phys_pages cnt fl = AllocResult.kpanic) ∧
    (0 < cnt → ∀ jw cw, fl.get? jw = some cw → cnt ≤ cw.pagecnt →
       ∃ i best, fl.get? i = some best ∧ cnt ≤ best.pagecnt ∧
         (∀ j c, fl.get? j = some c → cnt ≤ c.pagecnt → best.pagecnt ≤ c.pagecnt) ∧
         (best.pagecnt = cnt →
            alloc_phys_pages cnt fl = AllocResult.mem best.addr (fl.eraseIdx i)) ∧
         (cnt < best.pagecnt →
            alloc_phys_pages cnt fl =
              AllocResult.mem (best.addr + (best.pagecnt - cnt) * PAGE_SIZE)
                (fl.set i { addr := best.addr, pagecnt := best.pagecnt - cnt }))) := by
  refine ⟨by simp [alloc_phys_pages], ?_, ?_⟩
  · intro hcnt hnofit
    unfold alloc_phys_pages
    rw [if_neg (show ¬ cnt = 0 by omega)]
    by_cases hfl : fl = []
    · rw [if_pos hfl]
    · rw [if_neg hfl]
      rcases bestFitScan_none_spec cnt fl 0 with ⟨heq, _⟩ | ⟨j, c, hg, hc, _, _⟩
      · simp only [heq]
      · have := hnofit j c hg
        omega
  · intro hcnt jw cw hgw hcw
    rcases bestFitScan_none_spec cnt fl 0 with ⟨_, hmin⟩ | ⟨j, c, hg, hc, heq, hmin⟩
    · have := hmin jw cw hgw
      omega
    · have h0 : (0 : Nat) + j = j := by omega
      rw [h0] at heq
      have hfl : ¬ fl = [] := by
        intro h
        subst h
        simp at hg
      refine ⟨j, c, hg, hc, hmin, ?_, ?_⟩
      · intro he
        unfold alloc_phys_pages
        rw [if_neg (show ¬ cnt = 0 by omega), if_neg hfl]
        simp only [heq, hg, he, if_pos]
      · intro hlt
        unfold alloc_phys_pages
        rw [if_neg (show ¬ cnt = 0 by omega), if_neg hfl]
        simp only [heq, hg]
        rw [if_neg (show ¬ c.pagecnt = cnt by omega)]

/-- C7 witness: the policy instantiated on the two-chunk free list
[(addr 4096, 1 page), (addr 8192, 3 pages)] with a request of 2 pages. -/
theorem c7_alloc_phys_pages_policy_witness :
    0 < 2 ∧
    (∃ i best,
      ([⟨4096, 1⟩, ⟨8192, 3⟩] : List PageChunk).get? i = some best ∧ 2 ≤ best.pagecnt ∧
      (∀ j c, ([⟨4096, 1⟩, ⟨8192, 3⟩] : List PageChunk).get? j = some c →
         2 ≤ c.pagecnt → best.pagecnt ≤ c.pagecnt) ∧
      (best.pagecnt = 2 →
         alloc_phys_pages 2 [⟨4096, 1⟩, ⟨8192, 3⟩] =
           AllocResult.mem best.addr (([⟨4096, 1⟩, ⟨8192, 3⟩] : List PageChunk).eraseIdx i)) ∧
      (2 < best.pagecnt →
         alloc_phys_pages 2 [⟨4096, 1⟩, ⟨8192, 3⟩] =
           AllocResult.mem (best.addr + (best.pagecnt - 2) * PAGE_SIZE)
             (([⟨4096, 1⟩, ⟨8192, 3⟩] : List PageChunk).set i
               { addr := best.addr, pagecnt := best.pagecnt - 2 }))) :=
  ⟨by decide,
   (c7_alloc_phys_pages_policy 2 [⟨4096, 1⟩, ⟨8192, 3⟩]).2.2 (by decide) 1 ⟨8192, 3⟩
     (by decide) (by decide)⟩

/-- C2 (code-bug evidence): on the concrete image dHole, inode 1 is a
512-byte file whose direct index 0 is a hole (stored index 0).  Because the
hole checks in ktfs_map_block are commented out, the mapper returns
data_start + 0 = block 4 instead of -ENOENT, and a 1-byte read returns the
byte 7 stored in disk block 4 instead of the zero-fill the specification
requires for a hole. -/
theorem c2_hole_read_returns_block_zero_contents :
    ktfs_map_block dHole (ktfs_read_super dHole)
        (ktfs_inode_grab dHole (ktfs_read_super dHole) 1) 0 = Except.ok 4 ∧
    ktfs_fetch dHole hHole 1 =
      Except.ok ([7], { size := 512, position := 1, inode_number := 1 }) :=
  ⟨rfl, rfl⟩

/-- C3 counterexample: a write of 1 byte at position exactly
KTFS_MAX_FILE_SIZE returns -EINVAL, not 0 as the claim states (the code
rejects pos >= KTFS_MAX_FILE_SIZE, not only pos > KTFS_MAX_FILE_SIZE). -/
theorem c3_store_at_max_returns_einval :
    ktfs_store dHole hAtMax (fun _ => 0) 1 = Except.error (-1) := rfl

/-- C3 (amended): for a write of n > 0 bytes, a starting position at or above
KTFS_MAX_FILE_SIZE (including pos == KTFS_MAX_FILE_SIZE) returns -EINVAL,
and for pos < KTFS_MAX_FILE_SIZE any successful write returns exactly
min n (KTFS_MAX_FILE_SIZE - pos) bytes, the requested count clamped to the
remaining headroom. -/
theorem c3_store_clamps_to_max_file_size (d : Disk) (h : KtfsFileHandle)
    (buf : Nat → Nat) (len : Nat) (hlen : 0 < len) :
    (KTFS_MAX_FILE_SIZE ≤ h.position → ktfs_store d h buf len = Except.error (-1)) ∧
    (∀ r d2 h2, ktfs_store d h buf len = Except.ok (r, d2, h2) →
       r = min len (KTFS_MAX_FILE_SIZE - h.position)) := by
  have hlen0 : ¬ len = 0 := by omega
  have herr : KTFS_MAX_FILE_SIZE ≤ h.position → ktfs_store d h buf len = Except.error (-1) := by
    intro hge
    simp only [ktfs_store, if_neg hlen0, if_pos hge]
  refine ⟨herr, ?_⟩
  intro r d2 h2 hok
  by_cases hge : KTFS_MAX_FILE_SIZE ≤ h.position
  · rw [herr hge] at hok
    cases hok
  · have hsow : ¬ min len (KTFS_MAX_FILE_SIZE - h.position) = 0 := by omega
    simp only [ktfs_store, if_neg hlen0, if_neg hge, if_neg hsow] at hok
    split at hok
    · cases hok
    · split at hok
      · cases hok
      · simp only [Except.ok.injEq, Prod.mk.injEq] at hok
        have := hok.1
        omega

/-- C3 witness: the amended statement at the concrete image dMapped with a
1-byte write at position 0. -/
theorem c3_store_clamps_to_max_file_size_witness :
    0 < 1 ∧
    ((KTFS_MAX_FILE_SIZE ≤ hMapped.position →
        ktfs_store dMapped hMapped (fun _ => 65) 1 = Except.error (-1)) ∧
     (∀ r d2 h2, ktfs_store dMapped hMapped (fun _ => 65) 1 = Except.ok (r, d2, h2) →
        r = min 1 (KTFS_MAX_FILE_SIZE - hMapped.position))) :=
  ⟨by decide, c3_store_clamps_to_max_file_size dMapped hMapped (fun _ => 65) 1 (by decide)⟩

/-- C4 counterexample: opening the empty name "" on the concrete image dHole
returns -EINVAL; it does not open a listing uio as the claim states, because
the `!*name` argument check rejects "" before the listing test runs. -/
theorem c4_open_empty_name_einval : ktfs_open dHole [] = Except.error (-1) := rfl

/-- C4 (amended): with a well-formed root directory (size a multiple of the
16-byte entry size), opening "/" succeeds and yields a listing uio that
snapshots the superblock and the root directory inode at open time, with
next_index 0 and total_entries = size / 16; opening "" instead returns
-EINVAL. -/
theorem c4_open_root_listing (d : Disk)
    (hsz : (ktfs_inode_grab d (ktfs_read_super d)
        (ktfs_read_super d).root_directory_inode).size % 16 = 0) :
    ktfs_open d [47] =
      Except.ok (KtfsOpenResult.listing (ktfs_read_super d)
        (ktfs_inode_grab d (ktfs_read_super d) (ktfs_read_super d).root_directory_inode) 0
        ((ktfs_inode_grab d (ktfs_read_super d)
            (ktfs_read_super d).root_directory_inode).size / 16)) ∧
    ktfs_open d [] = Except.error (-1) := by
  constructor
  · simp [ktfs_open, hsz]
  · rfl

/-- C4 witness: the amended statement at the concrete image dHole, whose root
inode (inode 0) has size 0. -/
theorem c4_open_root_listing_witness :
    ktfs_open dHole [47] =
      Except.ok (KtfsOpenResult.listing (ktfs_read_super dHole)
        (ktfs_inode_grab dHole (ktfs_read_super dHole)
          (ktfs_read_super dHole).root_directory_inode) 0
        ((ktfs_inode_grab dHole (ktfs_read_super dHole)
            (ktfs_read_super dHole).root_directory_inode).size / 16)) ∧
    ktfs_open dHole [] = Except.error (-1) :=
  c4_open_root_listing dHole (by decide)

/-- C10: the FCNTL_SETEND path of ktfs_cntl rejects a requested size above
KTFS_MAX_FILE_SIZE or strictly below the current inode size with -EINVAL,
returning the disk (inode, block lists, bitmaps) and the handle (position)
unchanged; and whenever the call returns 0 the requested size lies between
the current inode size and KTFS_MAX_FILE_SIZE inclusive. -/
theorem c10_setend_reject_leaves_state_unchanged (d : Disk) (h : KtfsFileHandle) (arg : Nat) :
    ((KTFS_MAX_FILE_SIZE < arg ∨
        arg < (ktfs_inode_grab d (ktfs_read_super d) h.inode_number).size) →
      ktfs_cntl d h 1 arg = { ret := -1, out := none, d := d, h := h }) ∧
    ((ktfs_cntl d h 1 arg).ret = 0 →
      (ktfs_inode_grab d (ktfs_read_super d) h.inode_number).size ≤ arg ∧
      arg ≤ KTFS_MAX_FILE_SIZE) := by
  constructor
  · intro hbad
    by_cases h1 : KTFS_MAX_FILE_SIZE < arg
    · simp [ktfs_cntl, h1]
    · have h2 : arg < (ktfs_inode_grab d (ktfs_read_super d) h.inode_number).size := by
        rcases hbad with hb | hb
        · omega
        · exact hb
      simp [ktfs_cntl, h1, h2]
  · intro hr
    by_cases h1 : KTFS_MAX_FILE_SIZE < arg
    · simp [ktfs_cntl, h1] at hr
    · by_cases h2 : arg < (ktfs_inode_grab d (ktfs_read_super d) h.inode_number).size
      · simp [ktfs_cntl, h1, h2] at hr
      · omega

/-- C10 witness: the statement at the concrete image dHole with handle hHole
and a requested size of 0 (below the current size 512 of inode 1). -/
theorem c10_setend_reject_witness :
    ((KTFS_MAX_FILE_SIZE < 0 ∨
        0 < (ktfs_inode_grab dHole (ktfs_read_super dHole) hHole.inode_number).size) →
      ktfs_cntl dHole hHole 1 0 = { ret := -1, out := none, d := dHole, h := hHole }) ∧
    ((ktfs_cntl dHole hHole 1 0).ret = 0 →
      (ktfs_inode_grab dHole (ktfs_read_super dHole) hHole.inode_number).size ≤ 0 ∧
      0 ≤ KTFS_MAX_FILE_SIZE) :=
  c10_setend_reject_leaves_state_unchanged dHole hHole 0

/-- The first-free scan finds the first invalid unpinned slot: if slot i is
invalid and unpinned and every earlier slot is valid or pinned, the scan
started at i0 returns i0 + i. -/
theorem cache_first_free_eq (l : List CacheEntry) :
    ∀ (i0 i : Nat) (e : CacheEntry), l.get? i = some e → e.valid = false → e.in_use = false →
      (∀ j e', j < i → l.get? j = some e' → e'.valid = true ∨ e'.in_use = true) →
      cache_first_free l i0 = some (i0 + i) := by
  induction l with
  | nil =>
      intro i0 i e hg
      simp at hg
  | cons e0 rest ih =>
      intro i0 i e hg hv hu hbefore
      by_cases h0 : e0.valid = false ∧ e0.in_use = false
      · have hi : i = 0 := by
          by_contra hne
          rcases hbefore 0 e0 (by omega) (by simp) with hb | hb
          · rw [hb] at h0; cases h0.1
          · rw [hb] at h0; cases h0.2
        show (if e0.valid = false ∧ e0.in_use = false then some i0 else _) = _
        rw [if_pos h0, hi]
        simp
      · have hi : i ≠ 0 := by
          intro h
          subst h
          simp at hg
          subst hg
          exact h0 ⟨hv, hu⟩
        obtain ⟨i', rfl⟩ : ∃ i', i = i' + 1 := ⟨i - 1, by omega⟩
        show (if e0.valid = false ∧ e0.in_use = false then some i0
              else cache_first_free rest (i0 + 1)) = _
        rw [if_neg h0]
        have := ih (i0 + 1) i' e (by simpa using hg) hv hu
          (fun j e' hj hg' => hbefore (j + 1) e' (by omega) (by simpa using hg'))
        rw [this]
        congr 1
        omega

/-- If every slot is valid or pinned, the first-free scan fails. -/
theorem cache_first_free_none (l : List CacheEntry) :
    ∀ (i0 : Nat), (∀ i e, l.get? i = some e → e.valid = true ∨ e.in_use = true) →
      cache_first_free l i0 = none := by
  induction l with
  | nil => intro i0 _; rfl
  | cons e0 rest ih =>
      intro i0 hall
      have h0 : ¬ (e0.valid = false ∧ e0.in_use = false) := by
        rcases hall 0 e0 (by simp) with hb | hb <;> simp [hb]
      show (if e0.valid = false ∧ e0.in_use = false then some i0
            else cache_first_free rest (i0 + 1)) = none
      rw [if_neg h0]
      exact ih (i0 + 1) (fun i e hg => hall (i + 1) e (by simpa using hg))

/-- One unfolding step of the LRU scan. -/
theorem cache_lru_scan_cons (e0 : CacheEntry) (rest : List CacheEntry)
    (i : Nat) (min : Nat) (ret : Int) :
    cache_lru_scan (e0 :: rest) i min ret =
      if e0.valid = true ∧ e0.in_use = false ∧ (ret = -1 ∨ e0.access_time < min) then
        cache_lru_scan rest (i + 1) e0.access_time (Int.ofNat i)
      else cache_lru_scan rest (i + 1) min ret := rfl

/-- LRU scan from a recorded candidate with recorded minimum min: either the
record is kept and every candidate of the list has access_time at least min,
or a candidate strictly below min is selected whose access_time is minimal
among the candidates of the list. -/
theorem cache_lru_scan_some_spec (l : List CacheEntry) :
    ∀ (i0 min r0 : Nat),
      (cache_lru_scan l i0 min (Int.ofNat r0) = Int.ofNat r0 ∧
        ∀ j e, l.get? j = some e → lruCand e → min ≤ e.access_time)
      ∨ (∃ j e, l.get? j = some e ∧ lruCand e ∧ e.access_time < min ∧
          cache_lru_scan l i0 min (Int.ofNat r0) = Int.ofNat (i0 + j) ∧
          ∀ j' e', l.get? j' = some e' → lruCand e' → e.access_time ≤ e'.access_time) := by
  induction l with
  | nil =>
      intro i0 min r0
      left
      refine ⟨rfl, ?_⟩
      intro j e hg
      simp at hg
  | cons e0 rest ih =>
      intro i0 min r0
      rw [cache_lru_scan_cons]
      have hne : ¬ ((Int.ofNat r0 : Int) = -1) := by
        show ¬ ((r0 : Int) = -1)
        omega
      by_cases hcand : e0.valid = true ∧ e0.in_use = false
      · by_cases hlt : e0.access_time < min
        · rw [if_pos ⟨hcand.1, hcand.2, Or.inr hlt⟩]
          rcases ih (i0 + 1) e0.access_time i0 with ⟨heq, hmin⟩ | ⟨j, e, hg, hc, hlt2, heq, hmin⟩
          · right
            refine ⟨0, e0, by simp, hcand, hlt, by simpa using heq, ?_⟩
            intro j' e' hg' hc'
            match j', hg' with
            | 0, hg' => simp at hg'; subst hg'; omega
            | j'' + 1, hg' => exact hmin j'' e' (by simpa using hg') hc'
          · right
            have hj : i0 + 1 + j = i0 + (j + 1) := by omega
            refine ⟨j + 1, e, by simpa using hg, hc, by omega, by rw [heq, hj], ?_⟩
            intro j' e' hg' hc'
            match j', hg' with
            | 0, hg' => simp at hg'; subst hg'; omega
            | j'' + 1, hg' => exact hmin j'' e' (by simpa using hg') hc'
        · rw [if_neg (by
            intro hcon
            rcases hcon.2.2 with hb | hb
            · exact hne hb
            · exact hlt hb)]
          rcases ih (i0 + 1) min r0 with ⟨heq, hmin⟩ | ⟨j, e, hg, hc, hlt2, heq, hmin⟩
          · left
            refine ⟨heq, ?_⟩
            intro j' e' hg' hc'
            match j', hg' with
            | 0, hg' => simp at hg'; subst hg'; omega
            | j'' + 1, hg' => exact hmin j'' e' (by simpa using hg') hc'
          · right
            have hj : i0 + 1 + j = i0 + (j + 1) := by omega
            refine ⟨j + 1, e, by simpa using hg, hc, hlt2, by rw [heq, hj], ?_⟩
            intro j' e' hg' hc'
            match j', hg' with
            | 0, hg' => simp at hg'; subst hg'; omega
            | j'' + 1, hg' => exact hmin j'' e' (by simpa using hg') hc'
      · rw [if_neg (by intro hcon; exact hcand ⟨hcon.1, hcon.2.1⟩)]
        rcases ih (i0 + 1) min r0 with ⟨heq, hmin⟩ | ⟨j, e, hg, hc, hlt2, heq, hmin⟩
        · left
          refine ⟨heq, ?_⟩
          intro j' e' hg' hc'
          match j', hg' with
          | 0, hg' => simp at hg'; subst hg'; exact absurd hc' hcand
          | j'' + 1, hg' => exact hmin j'' e' (by simpa using hg') hc'
        · right
          have hj : i0 + 1 + j = i0 + (j + 1) := by omega
          refine ⟨j + 1, e, by simpa using hg, hc, hlt2, by rw [heq, hj], ?_⟩
          intro j' e' hg' hc'
          match j', hg' with
          | 0, hg' => simp at hg'; subst hg'; exact absurd hc' hcand
          | j'' + 1, hg' => exact hmin j'' e' (by simpa using hg') hc'

/-- LRU scan started with ret = -1: either there is no candidate and the scan
returns -1, or it returns a candidate of minimal access_time. -/
theorem cache_lru_scan_none_spec (l : List CacheEntry) :
    ∀ (i0 min : Nat),
      (cache_lru_scan l i0 min (-1) = -1 ∧
        ∀ j e, l.get? j = some e → ¬ lruCand e)
      ∨ (∃ j e, l.get? j = some e ∧ lruCand e ∧
          cache_lru_scan l i0 min (-1) = Int.ofNat (i0 + j) ∧
          ∀ j' e', l.get? j' = some e' → lruCand e' → e.access_time ≤ e'.access_time) := by
  induction l with
  | nil =>
      intro i0 min
      left
      refine ⟨rfl, ?_⟩
      intro j e hg
      simp at hg
  | cons e0 rest ih =>
      intro i0 min
      rw [cache_lru_scan_cons]
      by_cases hcand : e0.valid = true ∧ e0.in_use = false
      · rw [if_pos ⟨hcand.1, hcand.2, Or.inl rfl⟩]
        rcases cache_lru_scan_some_spec rest (i0 + 1) e0.access_time i0 with
          ⟨heq, hmin⟩ | ⟨j, e, hg, hc, hlt2, heq, hmin⟩
        · right
          refine ⟨0, e0, by simp, hcand, by simpa using heq, ?_⟩
          intro j' e' hg' hc'
          match j', hg' with
          | 0, hg' => simp at hg'; subst hg'; omega
          | j'' + 1, hg' => exact hmin j'' e' (by simpa using hg') hc'
        · right
          have hj : i0 + 1 + j = i0 + (j + 1) := by omega
          refine ⟨j + 1, e, by simpa using hg, hc, by rw [heq, hj], ?_⟩
          intro j' e' hg' hc'
          match j', hg' with
          | 0, hg' => simp at hg'; subst hg'; omega
          | j'' + 1, hg' => exact hmin j'' e' (by simpa using hg') hc'
      · rw [if_neg (by intro hcon; exact hcand ⟨hcon.1, hcon.2.1⟩)]
        rcases ih (i0 + 1) min with ⟨heq, hmin⟩ | ⟨j, e, hg, hc, heq, hmin⟩
        · left
          refine ⟨heq, ?_⟩
          intro j' e' hg'
          match j', hg' with
          | 0, hg' => simp at hg'; subst hg'; exact fun hc' => hcand hc'
          | j'' + 1, hg' => exact hmin j'' e' (by simpa using hg')
        · right
          have hj : i0 + 1 + j = i0 + (j + 1) := by omega
          refine ⟨j + 1, e, by simpa using hg, hc, by rw [heq, hj], ?_⟩
          intro j' e' hg' hc'
          match j', hg' with
          | 0, hg' => simp at hg'; subst hg'; exact absurd hc' hcand
          | j'' + 1, hg' => exact hmin j'' e' (by simpa using hg') hc'

/-- If no entry is owned by the calling thread, the implicit unpin of
cache_get_block leaves the cache unchanged. -/
theorem cache_unpin_last_noop (c : CacheSt) (t : Int)
    (h : ∀ i e, c.entries.get? i = some e → e.owner_tid ≠ t) :
    cache_unpin_last c t = c := by
  unfold cache_unpin_last
  by_cases h0 : (0 : Int) ≤ c.last_used
  · rw [if_pos h0]
    cases hg : c.entries.get? c.last_used.toNat with
    | none => rfl
    | some e =>
        have hne := h _ e hg
        simp [hne]
  · rw [if_neg h0]

/-- If no valid entry carries the requested block number, the hit scan
fails. -/
theorem cache_hit_find_none (l : List CacheEntry) (p : Nat) :
    ∀ (i0 : Nat), (∀ i e, l.get? i = some e → ¬ (e.block_n = p ∧ e.valid = true)) →
      cache_hit_find l p i0 = none := by
  induction l with
  | nil => intro i0 _; rfl
  | cons e0 rest ih =>
      intro i0 hall
      show (if e0.block_n = p ∧ e0.valid = true then some i0
            else cache_hit_find rest p (i0 + 1)) = none
      rw [if_neg (hall 0 e0 (by simp))]
      exact ih (i0 + 1) (fun i e hg => hall (i + 1) e (by simpa using hg))

/-- C6: on a cache_get_block miss the victim slot is the first invalid
unpinned slot in index order; when every slot is valid or pinned it is a
valid unpinned slot of minimal access_time; and when all entries are pinned
(by other threads, so the caller's implicit unpin does not fire) and the
request misses, cache_evict_entry yields -1 and cache_get_block returns
-EBUSY. -/
theorem c6_eviction_policy (c : CacheSt) (t : Int) (pos : Nat)
    (hpos : pos % CACHE_BLKSZ = 0) :
    (∀ i e, c.entries.get? i = some e → e.valid = false → e.in_use = false →
       (∀ j e', j < i → c.entries.get? j = some e' → e'.valid = true ∨ e'.in_use = true) →
       cache_evict_entry c = Int.ofNat i) ∧
    ((∀ i e, c.entries.get? i = some e → e.valid = true ∨ e.in_use = true) →
     ∀ iw ew, c.entries.get? iw = some ew → ew.valid = true → ew.in_use = false →
       ∃ i e, cache_evict_entry c = Int.ofNat i ∧ c.entries.get? i = some e ∧
         e.valid = true ∧ e.in_use = false ∧
         (∀ j e', c.entries.get? j = some e' → e'.valid = true → e'.in_use = false →
           e.access_time ≤ e'.access_time)) ∧
    ((∀ i e, c.entries.get? i = some e → e.in_use = true) →
     (∀ i e, c.entries.get? i = some e → e.owner_tid ≠ t) →
     (∀ i e, c.entries.get? i = some e → ¬ (e.block_n = pos / CACHE_BLKSZ ∧ e.valid = true)) →
       cache_evict_entry c = -1 ∧ cache_get_block c pos t = CacheGetRes.err (-2)) := by
  refine ⟨?_, ?_, ?_⟩
  · intro i e hg hv hu hbefore
    unfold cache_evict_entry
    rw [cache_first_free_eq c.entries 0 i e hg hv hu hbefore]
    simp
  · intro hnofree iw ew hgw hvw huw
    unfold cache_evict_entry
    rw [cache_first_free_none c.entries 0 hnofree]
    rcases cache_lru_scan_none_spec c.entries 0 4294967295 with ⟨_, hnone⟩ | ⟨j, e, hg, hc, heq, hmin⟩
    · exact absurd ⟨hvw, huw⟩ (hnone iw ew hgw)
    · refine ⟨j, e, by simpa using heq, hg, hc.1, hc.2, ?_⟩
      intro j' e' hg' hv' hu'
      exact hmin j' e' hg' ⟨hv', hu'⟩
  · intro hpin hown hmiss
    have hev : cache_evict_entry c = -1 := by
      unfold cache_evict_entry
      rw [cache_first_free_none c.entries 0 (fun i e hg => Or.inr (hpin i e hg))]
      show cache_lru_scan c.entries 0 4294967295 (-1) = -1
      rcases cache_lru_scan_none_spec c.entries 0 4294967295 with ⟨heq, _⟩ | ⟨j, e, hg, hc, _, _⟩
      · exact heq
      · rcases hc with ⟨_, hu⟩
        rw [hpin j e hg] at hu
        cases hu
    refine ⟨hev, ?_⟩
    unfold cache_get_block
    rw [if_neg (by omega)]
    rw [cache_unpin_last_noop c t hown]
    simp only [cache_hit_find_none c.entries (pos / CACHE_BLKSZ) 0 hmiss, hev]
    norm_num

/-- C6 witness: the statement at the all-pinned cache cAllPinned with caller
thread 0 and position 0. -/
theorem c6_eviction_policy_witness :
    (∀ i e, cAllPinned.entries.get? i = some e → e.valid = false → e.in_use = false →
       (∀ j e', j < i → cAllPinned.entries.get? j = some e' →
          e'.valid = true ∨ e'.in_use = true) →
       cache_evict_entry cAllPinned = Int.ofNat i) ∧
    ((∀ i e, cAllPinned.entries.get? i = some e → e.valid = true ∨ e.in_use = true) →
     ∀ iw ew, cAllPinned.entries.get? iw = some ew → ew.valid = true → ew.in_use = false →
       ∃ i e, cache_evict_entry cAllPinned = Int.ofNat i ∧
         cAllPinned.entries.get? i = some e ∧
         e.valid = true ∧ e.in_use = false ∧
         (∀ j e', cAllPinned.entries.get? j = some e' → e'.valid = true → e'.in_use = false →
           e.access_time ≤ e'.access_time)) ∧
    ((∀ i e, cAllPinned.entries.get? i = some e → e.in_use = true) →
     (∀ i e, cAllPinned.entries.get? i = some e → e.owner_tid ≠ 0) →
     (∀ i e, cAllPinned.entries.get? i = some e → ¬ (e.block_n = 0 / CACHE_BLKSZ ∧ e.valid = true)) →
       cache_evict_entry cAllPinned = -1 ∧
       cache_get_block cAllPinned 0 0 = CacheGetRes.err (-2)) :=
  c6_eviction_policy cAllPinned 0 0 (by decide)

/-- Any index returned by the first-free scan names an invalid unpinned
entry. -/
theorem cache_first_free_some_spec (l : List CacheEntry) :
    ∀ (i0 k : Nat), cache_first_free l i0 = some k →
      ∃ j e, k = i0 + j ∧ l.get? j = some e ∧ e.valid = false ∧ e.in_use = false := by
  induction l with
  | nil => intro i0 k h; cases h
  | cons e0 rest ih =>
      intro i0 k h
      by_cases h0 : e0.valid = false ∧ e0.in_use = false
      · refine ⟨0, e0, ?_, by simp, h0.1, h0.2⟩
        have : some i0 = some k := by
          rw [← h]
          show some i0 = (if e0.valid = false ∧ e0.in_use = false then some i0 else _)
          rw [if_pos h0]
        simp at this
        omega
      · have h' : cache_first_free rest (i0 + 1) = some k := by
          rw [← h]
          show cache_first_free rest (i0 + 1) =
            (if e0.valid = false ∧ e0.in_use = false then some i0
             else cache_first_free rest (i0 + 1))
          rw [if_neg h0]
        obtain ⟨j, e, hk, hg, hv, hu⟩ := ih (i0 + 1) k h'
        exact ⟨j + 1, e, by omega, by simpa using hg, hv, hu⟩

/-- If the first-free scan fails, every entry is valid or pinned. -/
theorem cache_first_free_none_spec (l : List CacheEntry) :
    ∀ (i0 : Nat), cache_first_free l i0 = none →
      ∀ j e, l.get? j = some e → e.valid = true ∨ e.in_use = true := by
  induction l with
  | nil => intro i0 _ j e hg; simp at hg
  | cons e0 rest ih =>
      intro i0 h j e hg
      by_cases h0 : e0.valid = false ∧ e0.in_use = false
      · exfalso
        have : (some i0 : Option Nat) = none := by
          rw [← h]
          show some i0 = (if e0.valid = false ∧ e0.in_use = false then some i0 else _)
          rw [if_pos h0]
        cases this
      · have h' : cache_first_free rest (i0 + 1) = none := by
          rw [← h]
          show cache_first_free rest (i0 + 1) =
            (if e0.valid = false ∧ e0.in_use = false then some i0
             else cache_first_free rest (i0 + 1))
          rw [if_neg h0]
        match j, hg with
        | 0, hg =>
            simp at hg
            rw [← hg]
            by_cases hv : e0.valid = true
            · exact Or.inl hv
            · by_cases hu : e0.in_use = true
              · exact Or.inr hu
              · exact absurd ⟨by simpa using hv, by simpa using hu⟩ h0
        | j' + 1, hg => exact ih (i0 + 1) h' j' e (by simpa using hg)

/-- Any index returned by the hit scan names the first valid entry with the
requested block number. -/
theorem cache_hit_find_some_spec (l : List CacheEntry) (p : Nat) :
    ∀ (i0 k : Nat), cache_hit_find l p i0 = some k →
      ∃ j, k = i0 + j ∧
        (∃ e, l.get? j = some e ∧ e.block_n = p ∧ e.valid = true) ∧
        ∀ j' e', j' < j → l.get? j' = some e' → ¬ (e'.block_n = p ∧ e'.valid = true) := by
  induction l with
  | nil => intro i0 k h; cases h
  | cons e0 rest ih =>
      intro i0 k h
      by_cases h0 : e0.block_n = p ∧ e0.valid = true
      · have : some i0 = some k := by
          rw [← h]
          show some i0 = (if e0.block_n = p ∧ e0.valid = true then some i0 else _)
          rw [if_pos h0]
        simp at this
        refine ⟨0, by omega, ⟨e0, by simp, h0.1, h0.2⟩, ?_⟩
        intro j' e' hj'
        omega
      · have h' : cache_hit_find rest p (i0 + 1) = some k := by
          rw [← h]
          show cache_hit_find rest p (i0 + 1) =
            (if e0.block_n = p ∧ e0.valid = true then some i0
             else cache_hit_find rest p (i0 + 1))
          rw [if_neg h0]
        obtain ⟨j, hk, hmatch, hbefore⟩ := ih (i0 + 1) k h'
        refine ⟨j + 1, by omega, by simpa using hmatch, ?_⟩
        intro j' e' hj' hg'
        match j', hg' with
        | 0, hg' => simp at hg'; subst hg'; exact h0
        | j'' + 1, hg' => exact hbefore j'' e' (by omega) (by simpa using hg')

/-- If the hit scan fails, no valid entry carries the requested block
number. -/
theorem cache_hit_find_none_spec (l : List CacheEntry) (p : Nat) :
    ∀ (i0 : Nat), cache_hit_find l p i0 = none →
      ∀ j e, l.get? j = some e → ¬ (e.block_n = p ∧ e.valid = true) := by
  induction l with
  | nil => intro i0 _ j e hg; simp at hg
  | cons e0 rest ih =>
      intro i0 h j e hg
      by_cases h0 : e0.block_n = p ∧ e0.valid = true
      · exfalso
        have : (some i0 : Option Nat) = none := by
          rw [← h]
          show some i0 = (if e0.block_n = p ∧ e0.valid = true then some i0 else _)
          rw [if_pos h0]
        cases this
      · have h' : cache_hit_find rest p (i0 + 1) = none := by
          rw [← h]
          show cache_hit_find rest p (i0 + 1) =
            (if e0.block_n = p ∧ e0.valid = true then some i0
             else cache_hit_find rest p (i0 + 1))
          rw [if_neg h0]
        match j, hg with
        | 0, hg => simp at hg; subst hg; exact h0
        | j' + 1, hg => exact ih (i0 + 1) h' j' e (by simpa using hg)

/-- The hit scan finds the first match: if entry i matches and no earlier
entry does, the scan started at i0 returns i0 + i. -/
theorem cache_hit_find_eq (l : List CacheEntry) (p : Nat) :
    ∀ (i0 i : Nat) (e : CacheEntry), l.get? i = some e → e.block_n = p → e.valid = true →
      (∀ j e', j < i → l.get? j = some e' → ¬ (e'.block_n = p ∧ e'.valid = true)) →
      cache_hit_find l p i0 = some (i0 + i) := by
  induction l with
  | nil => intro i0 i e hg; simp at hg
  | cons e0 rest ih =>
      intro i0 i e hg hb hv hbefore
      by_cases h0 : e0.block_n = p ∧ e0.valid = true
      · have hi : i = 0 := by
          by_contra hne
          exact hbefore 0 e0 (by omega) (by simp) h0
        show (if e0.block_n = p ∧ e0.valid = true then some i0 else _) = _
        rw [if_pos h0, hi]
        simp
      · have hi : i ≠ 0 := by
          intro h
          subst h
          simp at hg
          subst hg
          exact h0 ⟨hb, hv⟩
        obtain ⟨i', rfl⟩ : ∃ i', i = i' + 1 := ⟨i - 1, by omega⟩
        show (if e0.block_n = p ∧ e0.valid = true then some i0
              else cache_hit_find rest p (i0 + 1)) = _
        rw [if_neg h0]
        have := ih (i0 + 1) i' e (by simpa using hg) hb hv
          (fun j e' hj hg' => hbefore (j + 1) e' (by omega) (by simpa using hg'))
        rw [this]
        congr 1
        omega

/-- An index with a some-result of get? is within bounds. -/
theorem get?_some_lt {α : Type} (l : List α) (i : Nat) (a : α)
    (h : l.get? i = some a) : i < l.length := by
  by_contra hge
  rw [List.get?_eq_none.mpr (by omega)] at h
  cases h

/-- cache_get_block unfolded for an aligned position, with the lets
substituted away. -/
theorem cache_get_block_eq (c0 : CacheSt) (pos : Nat) (t : Int)
    (hpos : pos % CACHE_BLKSZ = 0) :
    cache_get_block c0 pos t =
      match cache_hit_find (cache_unpin_last c0 t).entries (pos / CACHE_BLKSZ) 0 with
      | some i =>
          match (cache_unpin_last c0 t).entries.get? i with
          | none => CacheGetRes.err (-1)
          | some e =>
              if e.in_use = true ∧ e.owner_tid ≠ t then CacheGetRes.blocked
              else
                CacheGetRes.ok i
                  { stor := (cache_unpin_last c0 t).stor,
                    entries := (cache_unpin_last c0 t).entries.set i
                      { e with
                        in_use := true, owner_tid := t,
                        access_time := (cache_unpin_last c0 t).timer + 1 },
                    timer := (cache_unpin_last c0 t).timer + 1,
                    last_used := Int.ofNat i }
      | none =>
          if cache_evict_entry (cache_unpin_last c0 t) < 0 then CacheGetRes.err (-2)
          else
            match (cache_unpin_last c0 t).entries.get?
                (cache_evict_entry (cache_unpin_last c0 t)).toNat with
            | none => CacheGetRes.err (-1)
            | some e =>
                CacheGetRes.ok (cache_evict_entry (cache_unpin_last c0 t)).toNat
                  { stor :=
                      (if e.valid = true ∧ e.dirty = true then
                        storSet (cache_unpin_last c0 t).stor e.block_n e.data
                       else (cache_unpin_last c0 t).stor),
                    entries := (cache_unpin_last c0 t).entries.set
                      (cache_evict_entry (cache_unpin_last c0 t)).toNat
                      { block_n := pos / CACHE_BLKSZ,
                        data :=
                          (if e.valid = true ∧ e.dirty = true then
                            storSet (cache_unpin_last c0 t).stor e.block_n e.data
                           else (cache_unpin_last c0 t).stor) (pos / CACHE_BLKSZ),
                        dirty := false, valid := true,
                        access_time := (cache_unpin_last c0 t).timer + 1,
                        in_use := true, owner_tid := t },
                    timer := (cache_unpin_last c0 t).timer + 1,
                    last_used := cache_evict_entry (cache_unpin_last c0 t) } := by
  unfold cache_get_block
  rw [if_neg (by omega)]

/-- cache_unpin_last unfolded when last_used names an existing entry. -/
theorem cache_unpin_last_eq_of_some (c : CacheSt) (t : Int) (e : CacheEntry)
    (h0 : 0 ≤ c.last_used) (hg : c.entries.get? c.last_used.toNat = some e) :
    cache_unpin_last c t =
      if e.owner_tid = t then
        { c with
          entries := c.entries.set c.last_used.toNat
            { e with in_use := false, owner_tid := -1 },
          last_used := -1 }
      else c := by
  unfold cache_unpin_last
  rw [if_pos h0, hg]

/-- cache_unpin_last is the identity when last_used names no entry. -/
theorem cache_unpin_last_eq_of_none (c : CacheSt) (t : Int)
    (h0 : 0 ≤ c.last_used) (hg : c.entries.get? c.last_used.toNat = none) :
    cache_unpin_last c t = c := by
  unfold cache_unpin_last
  rw [if_pos h0, hg]

/-- cache_unpin_last is the identity when last_used is negative. -/
theorem cache_unpin_last_eq_neg (c : CacheSt) (t : Int) (h0 : ¬ 0 ≤ c.last_used) :
    cache_unpin_last c t = c := by
  unfold cache_unpin_last
  rw [if_neg h0]

/-- Under the single-thread invariant, the implicit unpin step leaves a cache
with the same entry count in which every entry is unpinned and all fields
other than in_use and owner_tid are unchanged. -/
theorem cache_unpin_all_unpinned (c : CacheSt) (t : Int) (hInv : cacheInv c t) :
    (cache_unpin_last c t).entries.length = c.entries.length ∧
    (∀ j e', (cache_unpin_last c t).entries.get? j = some e' →
       e'.in_use = false ∧
       ∃ e, c.entries.get? j = some e ∧ e'.block_n = e.block_n ∧ e'.valid = e.valid ∧
         e'.data = e.data ∧ e'.dirty = e.dirty ∧ e'.access_time = e.access_time) := by
  obtain ⟨hlen, hinv⟩ := hInv
  have hpin : ∀ j e, c.entries.get? j = some e → e.in_use = true →
      e.owner_tid = t ∧ c.last_used = Int.ofNat j := by
    intro j e hg hu
    have hj : j < 64 := by
      have := get?_some_lt c.entries j e hg
      omega
    have := hinv j hj
    rw [hg] at this
    exact this hu
  have same : cache_unpin_last c t = c →
      (cache_unpin_last c t).entries.length = c.entries.length ∧
      (∀ j e', (cache_unpin_last c t).entries.get? j = some e' →
        (e'.in_use = true → e'.owner_tid = t ∧ c.last_used = Int.ofNat j) ∧
        ∃ e, c.entries.get? j = some e ∧ e'.block_n = e.block_n ∧ e'.valid = e.valid ∧
          e'.data = e.data ∧ e'.dirty = e.dirty ∧ e'.access_time = e.access_time) := by
    intro hid
    rw [hid]
    exact ⟨rfl, fun j e' hg' => ⟨hpin j e' hg', e', hg', rfl, rfl, rfl, rfl, rfl⟩⟩
  by_cases h0 : (0 : Int) ≤ c.last_used
  · cases hg : c.entries.get? c.last_used.toNat with
    | none =>
        obtain ⟨hl, hrest⟩ := same (cache_unpin_last_eq_of_none c t h0 hg)
        refine ⟨hl, ?_⟩
        intro j e' hg'
        obtain ⟨hp, hcore⟩ := hrest j e' hg'
        refine ⟨?_, hcore⟩
        cases hu : e'.in_use
        · rfl
        · exfalso
          obtain ⟨_, hlu⟩ := hp hu
          have htn : (Int.ofNat j).toNat = j := rfl
          rw [hlu, htn] at hg
          obtain ⟨e, hge, _⟩ := hcore
          rw [hge] at hg
          cases hg
    | some e =>
        by_cases howner : e.owner_tid = t
        · rw [cache_unpin_last_eq_of_some c t e h0 hg, if_pos howner]
          refine ⟨by simp, ?_⟩
          intro j e' hg'
          by_cases hj : j = c.last_used.toNat
          · subst hj
            have hlt : c.last_used.toNat < c.entries.length := get?_some_lt c.entries _ e hg
            rw [List.get?_set_eq_of_lt _ hlt] at hg'
            have he' : e' = { e with in_use := false, owner_tid := -1 } := by
              cases hg'
              rfl
            subst he'
            exact ⟨rfl, e, hg, rfl, rfl, rfl, rfl, rfl⟩
          · rw [List.get?_set_ne _ _ (fun h => hj h.symm)] at hg'
            refine ⟨?_, e', hg', rfl, rfl, rfl, rfl, rfl⟩
            cases hu : e'.in_use
            · rfl
            · exfalso
              obtain ⟨_, hlu⟩ := hpin j e' hg' hu
              apply hj
              have htn : (Int.ofNat j).toNat = j := rfl
              rw [hlu, htn]
        · have hid : cache_unpin_last c t = c := by
            rw [cache_unpin_last_eq_of_some c t e h0 hg, if_neg howner]
          obtain ⟨hl, hrest⟩ := same hid
          refine ⟨hl, ?_⟩
          intro j e' hg'
          obtain ⟨hp, hcore⟩ := hrest j e' hg'
          refine ⟨?_, hcore⟩
          cases hu : e'.in_use
          · rfl
          · exfalso
            obtain ⟨hot, hlu⟩ := hp hu
            have htn : (Int.ofNat j).toNat = j := rfl
            rw [hlu, htn] at hg
            obtain ⟨e2, hge, _⟩ := hcore
            rw [hid] at hg'
            rw [hg'] at hg
            have : e = e' := by cases hg; rfl
            subst this
            exact howner hot
  · obtain ⟨hl, hrest⟩ := same (cache_unpin_last_eq_neg c t h0)
    refine ⟨hl, ?_⟩
    intro j e' hg'
    obtain ⟨hp, hcore⟩ := hrest j e' hg'
    refine ⟨?_, hcore⟩
    cases hu : e'.in_use
    · rfl
    · exfalso
      obtain ⟨_, hlu⟩ := hp hu
      rw [hlu] at h0
      apply h0
      have : (Int.ofNat j) = (j : Int) := rfl
      rw [this]
      omega

/-- If some entry is unpinned, eviction succeeds and names an entry of the
cache. -/
theorem cache_evict_entry_ok (c' : CacheSt)
    (hne : ∃ j e, c'.entries.get? j = some e ∧ e.in_use = false) :
    ∃ k e, cache_evict_entry c' = Int.ofNat k ∧ c'.entries.get? k = some e := by
  obtain ⟨j0, e0, hg0, hu0⟩ := hne
  unfold cache_evict_entry
  cases hff : cache_first_free c'.entries 0 with
  | some k =>
      obtain ⟨j, e, hk, hg, _, _⟩ := cache_first_free_some_spec c'.entries 0 k hff
      refine ⟨k, e, rfl, ?_⟩
      rw [hk]
      simpa using hg
  | none =>
      have hvp := cache_first_free_none_spec c'.entries 0 hff
      show ∃ k e, cache_lru_scan c'.entries 0 4294967295 (-1) = Int.ofNat k ∧
        c'.entries.get? k = some e
      rcases cache_lru_scan_none_spec c'.entries 0 4294967295 with ⟨_, hnone⟩ | ⟨j, e, hg, _, heq, _⟩
      · exfalso
        have hv0 : e0.valid = true := by
          rcases hvp j0 e0 hg0 with hb | hb
          · exact hb
          · rw [hb] at hu0; cases hu0
        exact hnone j0 e0 hg0 ⟨hv0, hu0⟩
      · exact ⟨0 + j, e, heq, by simpa using hg⟩

/-- cache_get_block on a hit at entry i that is not pinned by another
thread: the entry is pinned to the caller and its access time refreshed. -/
theorem cache_get_block_hit_eq (c0 : CacheSt) (pos : Nat) (t : Int) (i : Nat) (e : CacheEntry)
    (hpos : pos % CACHE_BLKSZ = 0)
    (hfind : cache_hit_find (cache_unpin_last c0 t).entries (pos / CACHE_BLKSZ) 0 = some i)
    (hge : (cache_unpin_last c0 t).entries.get? i = some e)
    (hnb : ¬ (e.in_use = true ∧ e.owner_tid ≠ t)) :
    cache_get_block c0 pos t =
      CacheGetRes.ok i
        { stor := (cache_unpin_last c0 t).stor,
          entries := (cache_unpin_last c0 t).entries.set i
            { e with
              in_use := true, owner_tid := t,
              access_time := (cache_unpin_last c0 t).timer + 1 },
          timer := (cache_unpin_last c0 t).timer + 1,
          last_used := Int.ofNat i } := by
  rw [cache_get_block_eq c0 pos t hpos]
  simp only [hfind, hge]
  rw [if_neg hnb]

/-- cache_get_block on a miss with victim entry k: the victim is written
back if dirty, refilled from the backing storage, and pinned to the
caller. -/
theorem cache_get_block_miss_eq (c0 : CacheSt) (pos : Nat) (t : Int) (k : Nat) (e : CacheEntry)
    (hpos : pos % CACHE_BLKSZ = 0)
    (hfind : cache_hit_find (cache_unpin_last c0 t).entries (pos / CACHE_BLKSZ) 0 = none)
    (hev : cache_evict_entry (cache_unpin_last c0 t) = Int.ofNat k)
    (hge : (cache_unpin_last c0 t).entries.get? k = some e) :
    cache_get_block c0 pos t =
      CacheGetRes.ok k
        { stor :=
            (if e.valid = true ∧ e.dirty = true then
              storSet (cache_unpin_last c0 t).stor e.block_n e.data
             else (cache_unpin_last c0 t).stor),
          entries := (cache_unpin_last c0 t).entries.set k
            { block_n := pos / CACHE_BLKSZ,
              data :=
                (if e.valid = true ∧ e.dirty = true then
                  storSet (cache_unpin_last c0 t).stor e.block_n e.data
                 else (cache_unpin_last c0 t).stor) (pos / CACHE_BLKSZ),
              dirty := false, valid := true,
              access_time := (cache_unpin_last c0 t).timer + 1,
              in_use := true, owner_tid := t },
          timer := (cache_unpin_last c0 t).timer + 1,
          last_used := Int.ofNat k } := by
  rw [cache_get_block_eq c0 pos t hpos]
  simp only [hfind, hev]
  rw [if_neg (show ¬ (Int.ofNat k : Int) < 0 by
    show ¬ (k : Int) < 0
    omega)]
  have htn : (Int.ofNat k).toNat = k := rfl
  simp only [htn, hge]

/-- A successful first cache_get_block: under the single-thread invariant and
for an aligned position, the call returns some entry index with the PostGet
state description. -/
theorem cache_get_block_post (c : CacheSt) (t : Int) (pos : Nat)
    (hInv : cacheInv c t) (hpos : pos % CACHE_BLKSZ = 0) :
    ∃ i c1, cache_get_block c pos t = CacheGetRes.ok i c1 ∧
      PostGet c c1 i t (pos / CACHE_BLKSZ) := by
  obtain ⟨hlen', hcore⟩ := cache_unpin_all_unpinned c t hInv
  have hlen64 : c.entries.length = 64 := hInv.1
  cases hfind : cache_hit_find (cache_unpin_last c t).entries (pos / CACHE_BLKSZ) 0 with
  | some k =>
      obtain ⟨j, hk, hex, hbefore⟩ :=
        cache_hit_find_some_spec (cache_unpin_last c t).entries (pos / CACHE_BLKSZ) 0 k hfind
      obtain ⟨e, hge, hb, hv⟩ := hex
      have hkj : k = j := by omega
      subst hkj
      obtain ⟨hu, _⟩ := hcore k e hge
      have hres := cache_get_block_hit_eq c pos t k e hpos hfind hge
        (by
          intro hcon
          rw [hu] at hcon
          cases hcon.1)
      have hjlt : k < (cache_unpin_last c t).entries.length := get?_some_lt _ k e hge
      refine ⟨k, _, hres, ?_, ?_, ?_, ?_, ?_⟩
      · show ((cache_unpin_last c t).entries.set k _).length = c.entries.length
        rw [List.length_set]
        exact hlen'
      · refine ⟨_, List.get?_set_eq_of_lt _ hjlt, hb, hv, rfl, rfl⟩
      · intro j' e' hj' hg'
        rw [List.get?_set_ne _ _ (show k ≠ j' by omega)] at hg'
        exact hbefore j' e' hj' hg'
      · intro j' e' hg' hu'
        by_contra hne
        rw [List.get?_set_ne _ _ (fun h => hne h.symm)] at hg'
        obtain ⟨hu0, _⟩ := hcore j' e' hg'
        rw [hu0] at hu'
        cases hu'
      · rfl
  | none =>
      have hnomatch := cache_hit_find_none_spec (cache_unpin_last c t).entries
        (pos / CACHE_BLKSZ) 0 hfind
      have hvict : ∃ j e, (cache_unpin_last c t).entries.get? j = some e ∧ e.in_use = false := by
        cases hg0 : (cache_unpin_last c t).entries.get? 0 with
        | none =>
            exfalso
            rw [List.get?_eq_none] at hg0
            omega
        | some e0 => exact ⟨0, e0, hg0, (hcore 0 e0 hg0).1⟩
      obtain ⟨k, e, hev, hge⟩ := cache_evict_entry_ok _ hvict
      have hres := cache_get_block_miss_eq c pos t k e hpos hfind hev hge
      have hklt : k < (cache_unpin_last c t).entries.length := get?_some_lt _ k e hge
      refine ⟨k, _, hres, ?_, ?_, ?_, ?_, ?_⟩
      · show ((cache_unpin_last c t).entries.set k _).length = c.entries.length
        rw [List.length_set]
        exact hlen'
      · refine ⟨_, List.get?_set_eq_of_lt _ hklt, rfl, rfl, rfl, rfl⟩
      · intro j' e' hj' hg'
        rw [List.get?_set_ne _ _ (show k ≠ j' by omega)] at hg'
        exact hnomatch j' e' hg'
      · intro j' e' hg' hu'
        by_contra hne
        rw [List.get?_set_ne _ _ (fun h => hne h.symm)] at hg'
        obtain ⟨hu0, _⟩ := hcore j' e' hg'
        rw [hu0] at hu'
        cases hu'
      · rfl

/-- A second cache_get_block for the same aligned position on a state whose
last_used entry i matches the block, is valid, unpinned and ownerless, and
is the first match: the call pins entry i again without touching its data. -/
theorem cache_get_block_hit_ready (c2 : CacheSt) (t : Int) (pos : Nat) (i : Nat)
    (e2 : CacheEntry) (ht : 0 ≤ t) (hpos : pos % CACHE_BLKSZ = 0)
    (hlu : c2.last_used = Int.ofNat i)
    (hge : c2.entries.get? i = some e2)
    (hb : e2.block_n = pos / CACHE_BLKSZ) (hv : e2.valid = true) (hu : e2.in_use = false)
    (ho : e2.owner_tid = -1)
    (hbefore : ∀ j e, j < i → c2.entries.get? j = some e →
       ¬ (e.block_n = pos / CACHE_BLKSZ ∧ e.valid = true)) :
    cache_get_block c2 pos t =
      CacheGetRes.ok i
        { stor := c2.stor,
          entries := c2.entries.set i
            { e2 with in_use := true, owner_tid := t, access_time := c2.timer + 1 },
          timer := c2.timer + 1,
          last_used := Int.ofNat i } := by
  have htn : (Int.ofNat i).toNat = i := rfl
  have hnoop : cache_unpin_last c2 t = c2 := by
    have hg' : c2.entries.get? c2.last_used.toNat = some e2 := by
      rw [hlu, htn]
      exact hge
    rw [cache_unpin_last_eq_of_some c2 t e2
      (by
        rw [hlu]
        show (0 : Int) ≤ (i : Int)
        omega) hg']
    rw [if_neg (by
      rw [ho]
      omega)]
  have hfind : cache_hit_find c2.entries (pos / CACHE_BLKSZ) 0 = some (0 + i) :=
    cache_hit_find_eq c2.entries (pos / CACHE_BLKSZ) 0 i e2 hge hb hv hbefore
  rw [Nat.zero_add] at hfind
  have hres := cache_get_block_hit_eq c2 pos t i e2 hpos
    (by rw [hnoop]; exact hfind) (by rw [hnoop]; exact hge)
    (by
      intro hcon
      rw [hu] at hcon
      cases hcon.1)
  rw [hnoop] at hres
  exact hres

/-- C8: from any single-thread-reachable cache state (cacheInv) and any
in-range block-aligned position, the sequence get_block; release(dirty=0);
get_block succeeds: both calls return the same entry index, the entry is
valid, and the 512-byte block contents seen by the second call equal the
contents after the first call. -/
theorem c8_get_release_get_same_contents (c : CacheSt) (t : Int) (pos : Nat)
    (hInv : cacheInv c t) (ht : 0 ≤ t) (hpos : pos % CACHE_BLKSZ = 0) :
    ∃ i c1 e1 c3 e3,
      cache_get_block c pos t = CacheGetRes.ok i c1 ∧
      c1.entries.get? i = some e1 ∧ e1.valid = true ∧ e1.block_n = pos / CACHE_BLKSZ ∧
      cache_get_block (cache_release_block c1 i false) pos t = CacheGetRes.ok i c3 ∧
      c3.entries.get? i = some e3 ∧ e3.valid = true ∧ e3.data = e1.data := by
  obtain ⟨i, c1, hget, hlen1, hement, hbefore1, hsingle1, hlu1⟩ :=
    cache_get_block_post c t pos hInv hpos
  obtain ⟨e1, hge1, hb1, hv1, hu1, ho1⟩ := hement
  have hlt1 : i < c1.entries.length := get?_some_lt _ i e1 hge1
  have hrel : cache_release_block c1 i false =
      { c1 with
        entries := c1.entries.set i
          { e1 with dirty := e1.dirty || false, in_use := false, owner_tid := -1 } } := by
    unfold cache_release_block
    simp only [hge1]
    rw [if_pos hv1]
  have hge2 : (cache_release_block c1 i false).entries.get? i =
      some { e1 with dirty := e1.dirty || false, in_use := false, owner_tid := -1 } := by
    rw [hrel]
    exact List.get?_set_eq_of_lt _ hlt1
  have hlu2 : (cache_release_block c1 i false).last_used = Int.ofNat i := by
    rw [hrel]
    exact hlu1
  have hbefore2 : ∀ j e, j < i → (cache_release_block c1 i false).entries.get? j = some e →
      ¬ (e.block_n = pos / CACHE_BLKSZ ∧ e.valid = true) := by
    intro j e hj hg
    rw [hrel] at hg
    rw [List.get?_set_ne _ _ (show i ≠ j by omega)] at hg
    exact hbefore1 j e hj hg
  have hsec := cache_get_block_hit_ready (cache_release_block c1 i false) t pos i
    { e1 with dirty := e1.dirty || false, in_use := false, owner_tid := -1 }
    ht hpos hlu2 hge2 hb1 hv1 rfl rfl hbefore2
  have hlt2 : i < (cache_release_block c1 i false).entries.length := by
    rw [hrel]
    show i < (c1.entries.set i _).length
    rw [List.length_set]
    exact hlt1
  refine ⟨i, c1, e1, _,
    { e1 with
      dirty := e1.dirty || false, in_use := true, owner_tid := t,
      access_time := (cache_release_block c1 i false).timer + 1 },
    hget, hge1, hv1, hb1, hsec, ?_, hv1, rfl⟩
  exact List.get?_set_eq_of_lt _ hlt2

/-- C8 witness: the round-trip statement at the freshly created cache cFresh
with caller thread 0 and position 0. -/
theorem c8_get_release_get_same_contents_witness :
    ∃ i c1 e1 c3 e3,
      cache_get_block cFresh 0 0 = CacheGetRes.ok i c1 ∧
      c1.entries.get? i = some e1 ∧ e1.valid = true ∧ e1.block_n = 0 / CACHE_BLKSZ ∧
      cache_get_block (cache_release_block c1 i false) 0 0 = CacheGetRes.ok i c3 ∧
      c3.entries.get? i = some e3 ∧ e3.valid = true ∧ e3.data = e1.data :=
  c8_get_release_get_same_contents cFresh 0 0 (by decide) (by decide) (by decide)
